import Mathlib

/-!
Verification of the machine-center hierarchical graph core: data model,
structural mutators (cascading delete, subtree clone, root resolution),
the attention scanner and the undo/redo history tracker, embedded
shallowly from the TypeScript source.
-/

/-- Severity tiers of the attention system, ordered
`critical > red > amber > normal` (src/hooks/useDashboardScan.ts). -/
inductive Severity where
  | normal | amber | red | critical
deriving DecidableEq, Repr

/-- Three-tier age thresholds (amber, red, critical), in days. -/
structure Thresholds where
  amber : Int
  red : Int
  critical : Int
deriving DecidableEq, Repr

/-- `getSeverity` from src/hooks/useDashboardScan.ts lines 17-22:
checks `critical`, then `red`, then `amber` cutoffs in order. -/
def getSeverity (days : Int) (thresholds : Thresholds) : Severity :=
  if days ≥ thresholds.critical then .critical
  else if days ≥ thresholds.red then .red
  else if days ≥ thresholds.amber then .amber
  else .normal

/-- Whether an age meets the cutoff of a given tier (`normal` has no cutoff). -/
def meetsTier (days : Int) (t : Thresholds) : Severity → Prop
  | .normal => True
  | .amber => days ≥ t.amber
  | .red => days ≥ t.red
  | .critical => days ≥ t.critical

/-- Ordinal rank of a severity tier, `normal` lowest. -/
def tierRank : Severity → Nat
  | .normal => 0
  | .amber => 1
  | .red => 2
  | .critical => 3

/-- Claim C5: for every age-in-days value and every three-tier threshold
configuration, `getSeverity` returns the highest tier whose cutoff the age
meets or exceeds, else `normal`; with thresholds amber 3, red 7, critical 14
it maps 2 to normal, 3 to amber, 7 to red, 14 to critical and 20 to critical,
and it is total (a plain function) with no failure mode. -/
theorem getSeverity_highest_tier :
    (∀ (days : Int) (t : Thresholds),
      meetsTier days t (getSeverity days t) ∧
      ∀ s : Severity, meetsTier days t s → tierRank s ≤ tierRank (getSeverity days t)) ∧
    (getSeverity 2 ⟨3, 7, 14⟩ = .normal ∧ getSeverity 3 ⟨3, 7, 14⟩ = .amber ∧
     getSeverity 7 ⟨3, 7, 14⟩ = .red ∧ getSeverity 14 ⟨3, 7, 14⟩ = .critical ∧
     getSeverity 20 ⟨3, 7, 14⟩ = .critical) := by
  constructor
  · intro days t
    unfold getSeverity
    split_ifs with h1 h2 h3 <;>
      refine ⟨by simp [meetsTier] <;> omega, ?_⟩ <;>
      intro s hs <;> cases s <;>
      simp only [meetsTier] at hs <;> simp [tierRank] <;> omega
  · refine ⟨by decide, by decide, by decide, by decide, by decide⟩

/-! ## Data model

Record rows as stored in the keyed record store (src/types/index.ts schema as
used by the components).  Ids are modelled as `Nat`; the number `0` plays the
role of the empty-string sentinel (`parentId == ''` is top level, and JS
truthiness of an id string corresponds to `≠ 0`).  Dates are modelled directly
as integer day counts. -/

/-- The closed tagged-variant kind of a node
(`machine | sop | tool | skill | note`). -/
inductive NodeType where
  | machine | sop | tool | skill | note
deriving DecidableEq, Repr

/-- An embedded procedure step (`{id, text, done, order}`). -/
structure SopStep where
  id : Nat
  text : String
  done : Bool
  order : Nat
deriving DecidableEq, Repr

/-- A node row (TS `MachineNode`). -/
structure MachineNode where
  id : Nat
  parentId : Nat
  type : NodeType
  label : String
  description : String
  statusId : String
  posX : Int
  posY : Int
  goal : String
  bottleneck : String
  notes : String
  steps : List SopStep
  toolUrl : String
  proficiency : Option String
  hasChildren : Bool
  createdAt : Int
  updatedAt : Int
deriving DecidableEq, Repr

/-- An edge row (TS `MachineEdge`): a directed relationship scoped to the
hierarchy level of its `parentId`. -/
structure MachineEdge where
  id : Nat
  parentId : Nat
  source : Nat
  target : Nat
  relationship : String
  label : String
deriving DecidableEq, Repr

/-- A problem row keyed to its owning node. -/
structure Problem where
  id : Nat
  machineNodeId : Nat
  title : String
  description : String
  severity : String
  status : String
  createdAt : Int
deriving DecidableEq, Repr

/-- A victory condition row keyed to its owning node. -/
structure VictoryCondition where
  id : Nat
  machineNodeId : Nat
  label : String
  target : String
  current : String
  met : Bool
  order : Nat
deriving DecidableEq, Repr

/-- An immutable status-change audit row. -/
structure StatusChange where
  id : Nat
  machineNodeId : Nat
  fromStatusId : String
  toStatusId : String
  changedAt : Int
deriving DecidableEq, Repr

/-- An inbox capture row. -/
structure Capture where
  id : Nat
  text : String
  machineId : Nat
  processed : Bool
  createdAt : Int
deriving DecidableEq, Repr

/-- A generic append-only event-log row. -/
structure MachineEvent where
  id : Nat
  nodeId : Nat
  eventType : String
  timestamp : Int
  previousValue : Option String
  newValue : Option String
  metadata : Option String
deriving DecidableEq, Repr

/-- The whole keyed record store (one list per entity collection). -/
structure DB where
  nodes : List MachineNode
  edges : List MachineEdge
  problems : List Problem
  victoryConditions : List VictoryCondition
  statusChanges : List StatusChange
  captures : List Capture
  events : List MachineEvent
deriving DecidableEq, Repr

/-! ## Attention scanner (src/hooks/useDashboardScan.ts) -/

/-- `daysSince` (the `types/index.ts` content staged in
src/components/Collapsible.tsx lines 332-334):
`Math.floor((Date.now() - new Date(date).getTime()) / (1000*60*60*24))`.
With timestamps modelled directly as whole-day counts the division by a
day's milliseconds and the floor are identities, leaving the subtraction
of the stored date from the current clock. -/
def daysSince (now date : Int) : Int := now - date

/-- The four threshold profiles used by the scanner. -/
structure AttentionThresholds where
  problem : Thresholds
  staleness : Thresholds
  capture : Thresholds
  blocked : Thresholds
deriving DecidableEq, Repr

/-- `ATTENTION_THRESHOLDS` (the `types/index.ts` content staged in
src/components/Collapsible.tsx lines 312-317, imported by
useDashboardScan.ts): problem 3/7/14, staleness 7/14/21, capture 1/2/3 and
blocked 3/7/14 days, copied verbatim. -/
def ATTENTION_THRESHOLDS : AttentionThresholds :=
  { problem := ⟨3, 7, 14⟩, staleness := ⟨7, 14, 21⟩
    capture := ⟨1, 2, 3⟩, blocked := ⟨3, 7, 14⟩ }

/-- The five attention item tags. -/
inductive AttentionType where
  | staleProblem | staleNode | unmetVC | blockedMachine | agingCapture
deriving DecidableEq, Repr

/-- A ranked surfaced issue (`AttentionItem`). -/
structure AttentionItem where
  id : String
  type : AttentionType
  title : String
  subtitle : String
  nodeId : Nat
  machineId : Nat
  severity : Severity
  ageDays : Int
  link : String
deriving DecidableEq, Repr

/-- `new Map(allNodes.map(n => [n.id, n]))` followed by `.get`: a JS `Map`
keeps the last entry for a duplicated key. -/
def nodeMapGet (nodes : List MachineNode) (i : Nat) : Option MachineNode :=
  (nodes.filter (fun n => n.id == i)).getLast?

/-- The `while (n && n.parentId)` loop of `findRootMachine`
(src/hooks/useDashboardScan.ts lines 51-59).  The JS loop has no cycle guard;
`fuel` bounds the number of iterations and `none` means the loop is still
running after `fuel` steps. -/
def findRootLoop (nodes : List MachineNode) : Nat → MachineNode → Option MachineNode
  | 0, n =>
    if n.parentId = 0 then some n
    else match nodeMapGet nodes n.parentId with
      | none => some n
      | some _ => none
  | fuel + 1, n =>
    if n.parentId = 0 then some n
    else match nodeMapGet nodes n.parentId with
      | none => some n
      | some parent => findRootLoop nodes fuel parent

/-- `findRootMachine` (src/hooks/useDashboardScan.ts lines 51-59): walk
`parentId` pointers upward; `return n?.id || nodeId`. -/
def findRootMachine (nodes : List MachineNode) (fuel : Nat) (nodeId : Nat) : Option Nat :=
  match nodeMapGet nodes nodeId with
  | none => some nodeId
  | some n =>
    match findRootLoop nodes fuel n with
    | none => none
    | some m => some (if m.id ≠ 0 then m.id else nodeId)

/-- The navigation link `/machine/<id>?parent=<id>`. -/
def machineLink (machineId : Nat) : String :=
  "/machine/" ++ toString machineId ++ "?parent=" ++ toString machineId

/-- Detector 1 (stale problems): loop over the open problems
(src/hooks/useDashboardScan.ts lines 61-80).  `none` propagates a
non-terminating `findRootMachine` walk. -/
def scanStaleProblems (nodes : List MachineNode) (fuel : Nat) (now : Int) :
    List Problem → Option (List AttentionItem)
  | [] => some []
  | p :: ps => do
    let age := daysSince now p.createdAt
    let severity := getSeverity age ATTENTION_THRESHOLDS.problem
    if severity = .normal then
      scanStaleProblems nodes fuel now ps
    else do
      let node := nodeMapGet nodes p.machineNodeId
      let machineId ← findRootMachine nodes fuel p.machineNodeId
      let rest ← scanStaleProblems nodes fuel now ps
      pure ({ id := "prob-" ++ toString p.id
              type := .staleProblem
              title := if p.title = "" then "Untitled problem" else p.title
              subtitle := "Open " ++ toString age ++ "d on " ++
                (match node with
                 | some n => if n.label = "" then "Unknown" else n.label
                 | none => "Unknown")
              nodeId := p.machineNodeId
              machineId := machineId
              severity := severity
              ageDays := age
              link := machineLink machineId } :: rest)

/-- `allStatusChanges.filter(...).sort(desc changedAt)[0]`: the first element
of the stable descending sort is the earliest-listed row with maximal
`changedAt`. -/
def latestStatusChange : List StatusChange → Option StatusChange :=
  List.foldl
    (fun acc sc =>
      match acc with
      | none => some sc
      | some m => if sc.changedAt > m.changedAt then some sc else some m)
    none

/-- Detector 2 (blocked machines): loop over the blocked nodes
(src/hooks/useDashboardScan.ts lines 82-104). -/
def scanBlockedMachines (nodes : List MachineNode) (statusChanges : List StatusChange)
    (fuel : Nat) (now : Int) : List MachineNode → Option (List AttentionItem)
  | [] => some []
  | node :: rest => do
    let lastBlocked := latestStatusChange
      (statusChanges.filter (fun sc =>
        sc.machineNodeId == node.id && sc.toStatusId == "blocked"))
    let age := match lastBlocked with
      | some lb => daysSince now lb.changedAt
      | none => daysSince now node.updatedAt
    let severity := getSeverity age ATTENTION_THRESHOLDS.blocked
    if severity = .normal then
      scanBlockedMachines nodes statusChanges fuel now rest
    else do
      let machineId ← findRootMachine nodes fuel node.id
      let tail ← scanBlockedMachines nodes statusChanges fuel now rest
      pure ({ id := "blocked-" ++ toString node.id
              type := .blockedMachine
              title := node.label
              subtitle := "Blocked for " ++ toString age ++ "d"
              nodeId := node.id
              machineId := machineId
              severity := severity
              ageDays := age
              link := machineLink machineId } :: tail)

/-- Detector 3 (unmet victory conditions): loop over the unmet VCs
(src/hooks/useDashboardScan.ts lines 106-126). -/
def scanUnmetVCs (nodes : List MachineNode) (fuel : Nat) (now : Int) :
    List VictoryCondition → Option (List AttentionItem)
  | [] => some []
  | vc :: rest =>
    match nodeMapGet nodes vc.machineNodeId with
    | none => scanUnmetVCs nodes fuel now rest
    | some node => do
      let age := daysSince now node.updatedAt
      let severity := getSeverity age ATTENTION_THRESHOLDS.staleness
      if severity = .normal then
        scanUnmetVCs nodes fuel now rest
      else do
        let machineId ← findRootMachine nodes fuel vc.machineNodeId
        let tail ← scanUnmetVCs nodes fuel now rest
        pure ({ id := "vc-" ++ toString vc.id
                type := .unmetVC
                title := if vc.label = "" then "Unnamed condition" else vc.label
                subtitle := "Unmet on " ++ node.label ++ " — last updated " ++
                  toString age ++ "d ago"
                nodeId := vc.machineNodeId
                machineId := machineId
                severity := severity
                ageDays := age
                link := machineLink machineId } :: tail)

/-- Detector 4 (stale root machines): loop over the top-level machines
(src/hooks/useDashboardScan.ts lines 128-147).  A `statusId == 'blocked'`
root is skipped unconditionally. -/
def scanStaleRoots (now : Int) : List MachineNode → List AttentionItem
  | [] => []
  | node :: rest =>
    let age := daysSince now node.updatedAt
    let severity := getSeverity age ATTENTION_THRESHOLDS.staleness
    if severity = .normal then scanStaleRoots now rest
    else if node.statusId = "blocked" then scanStaleRoots now rest
    else
      { id := "stale-" ++ toString node.id
        type := .staleNode
        title := node.label
        subtitle := "No activity for " ++ toString age ++ "d"
        nodeId := node.id
        machineId := node.id
        severity := severity
        ageDays := age
        link := machineLink node.id } :: scanStaleRoots now rest

/-- Detector 5 (aging captures): at most one aggregate item
(src/hooks/useDashboardScan.ts lines 149-167). -/
def scanAgingCaptures (now : Int) (allCaptures : List Capture) : List AttentionItem :=
  let unprocessedCaptures := allCaptures.filter (fun c => !c.processed)
  match unprocessedCaptures with
  | [] => []
  | c0 :: cs =>
    let oldestAge := (cs.map (fun c => daysSince now c.createdAt)).foldl max
      (daysSince now c0.createdAt)
    let severity := getSeverity oldestAge ATTENTION_THRESHOLDS.capture
    if severity ≠ .normal then
      [{ id := "captures"
         type := .agingCapture
         title := toString (unprocessedCaptures.length) ++ " unprocessed capture" ++
           (if unprocessedCaptures.length > 1 then "s" else "")
         subtitle := "Oldest: " ++ toString oldestAge ++ "d ago"
         nodeId := 0
         machineId := 0
         severity := severity
         ageDays := oldestAge
         link := "/inbox" }]
    else []

/-- `severityOrder` of the final sort: `critical 0, red 1, amber 2, normal 3`. -/
def severityOrderRank : Severity → Nat
  | .critical => 0
  | .red => 1
  | .amber => 2
  | .normal => 3

/-- The sort comparator of `runScan` (lines 169-175) as a total preorder:
`scanLe a b` holds exactly when the JS comparator returns a non-positive
number on `(a, b)`. -/
def scanLe (a b : AttentionItem) : Prop :=
  severityOrderRank a.severity < severityOrderRank b.severity ∨
    (severityOrderRank a.severity = severityOrderRank b.severity ∧ b.ageDays ≤ a.ageDays)

instance : DecidableRel scanLe := fun a b => by
  unfold scanLe; infer_instance

instance : IsTotal AttentionItem scanLe :=
  ⟨fun a b => by unfold scanLe; omega⟩

instance : IsTrans AttentionItem scanLe :=
  ⟨fun a b c hab hbc => by unfold scanLe at *; omega⟩

/-- `runScan` (src/hooks/useDashboardScan.ts lines 38-178): the five
detectors over a shared snapshot, concatenated in order and stably sorted.
`fuel` bounds the `findRootMachine` walks; `none` means some walk never
finished (the JS code would hang on such a store). -/
def runScan (db : DB) (fuel : Nat) (now : Int) : Option (List AttentionItem) := do
  let allCaptures := db.captures.filter (fun c => !c.processed)
  let nodeMapNodes := db.nodes
  let d1 ← scanStaleProblems nodeMapNodes fuel now
    (db.problems.filter (fun p => p.status ≠ "resolved"))
  let d2 ← scanBlockedMachines nodeMapNodes db.statusChanges fuel now
    (db.nodes.filter (fun n => n.statusId == "blocked"))
  let d3 ← scanUnmetVCs nodeMapNodes fuel now
    (db.victoryConditions.filter (fun vc => !vc.met))
  let d4 := scanStaleRoots now
    (db.nodes.filter (fun n => n.parentId == 0 && n.type == NodeType.machine))
  let d5 := scanAgingCaptures now allCaptures
  pure (List.insertionSort scanLe (d1 ++ d2 ++ d3 ++ d4 ++ d5))

/-! ## Scanner properties (claims C6, C7) -/

/-- The lexicographic sort key realised by the `runScan` comparator. -/
def sortKey (it : AttentionItem) : Nat × Int :=
  (severityOrderRank it.severity, it.ageDays)

theorem key_eq_scanLe {a b : AttentionItem} (h : sortKey a = sortKey b) : scanLe a b := by
  simp only [sortKey, Prod.mk.injEq] at h
  exact Or.inr ⟨h.1, le_of_eq h.2.symm⟩

theorem filter_orderedInsert (k : Nat × Int) (x : AttentionItem) :
    ∀ l : List AttentionItem,
      (List.orderedInsert scanLe x l).filter (fun it => decide (sortKey it = k)) =
        if sortKey x = k then x :: l.filter (fun it => decide (sortKey it = k))
        else l.filter (fun it => decide (sortKey it = k)) := by
  intro l
  induction l with
  | nil =>
    by_cases hx : sortKey x = k <;>
      simp [List.orderedInsert, List.filter, hx]
  | cons b l ih =>
    by_cases hxb : scanLe x b
    · rw [List.orderedInsert, if_pos hxb]
      by_cases hx : sortKey x = k <;> simp [List.filter_cons, hx]
    · rw [List.orderedInsert, if_neg hxb]
      by_cases hx : sortKey x = k
      · have hb : sortKey b ≠ k := by
          intro hb
          exact hxb (key_eq_scanLe (hx.trans hb.symm))
        simp [List.filter_cons, hb, ih, hx]
      · by_cases hb : sortKey b = k <;> simp [List.filter_cons, hb, ih, hx]

theorem filter_insertionSort (k : Nat × Int) :
    ∀ l : List AttentionItem,
      (List.insertionSort scanLe l).filter (fun it => decide (sortKey it = k)) =
        l.filter (fun it => decide (sortKey it = k)) := by
  intro l
  induction l with
  | nil => rfl
  | cons a l ih =>
    rw [List.insertionSort, filter_orderedInsert]
    by_cases ha : sortKey a = k <;> simp [ha, ih, List.filter_cons]

theorem scanStaleProblems_items (nodes : List MachineNode) (fuel : Nat) (now : Int) :
    ∀ (ps : List Problem) (out : List AttentionItem),
      scanStaleProblems nodes fuel now ps = some out →
      ∀ it ∈ out, it.severity ≠ Severity.normal ∧ it.type = AttentionType.staleProblem := by
  intro ps
  induction ps with
  | nil =>
    intro out h it hit
    simp only [scanStaleProblems] at h
    cases h
    simp at hit
  | cons p ps ih =>
    intro out h it hit
    simp only [scanStaleProblems] at h
    split at h
    · exact ih out h it hit
    · rename_i hsev
      simp only [Option.bind_eq_bind, Option.bind_eq_some, Option.pure_def, Option.some.injEq] at h
      obtain ⟨mid, _, rest, hrest, hout⟩ := h
      subst hout
      rcases List.mem_cons.mp hit with rfl | hmem
      · exact ⟨hsev, rfl⟩
      · exact ih rest hrest it hmem

theorem scanBlockedMachines_items (nodes : List MachineNode)
    (statusChanges : List StatusChange) (fuel : Nat) (now : Int) :
    ∀ (ns : List MachineNode) (out : List AttentionItem),
      scanBlockedMachines nodes statusChanges fuel now ns = some out →
      ∀ it ∈ out, it.severity ≠ Severity.normal ∧ it.type = AttentionType.blockedMachine := by
  intro ns
  induction ns with
  | nil =>
    intro out h it hit
    simp only [scanBlockedMachines] at h
    cases h
    simp at hit
  | cons node ns ih =>
    intro out h it hit
    simp only [scanBlockedMachines] at h
    split at h
    · exact ih out h it hit
    · rename_i hsev
      simp only [Option.bind_eq_bind, Option.bind_eq_some, Option.pure_def, Option.some.injEq] at h
      obtain ⟨mid, _, rest, hrest, hout⟩ := h
      subst hout
      rcases List.mem_cons.mp hit with rfl | hmem
      · exact ⟨hsev, rfl⟩
      · exact ih rest hrest it hmem

theorem scanUnmetVCs_items (nodes : List MachineNode) (fuel : Nat) (now : Int) :
    ∀ (vcs : List VictoryCondition) (out : List AttentionItem),
      scanUnmetVCs nodes fuel now vcs = some out →
      ∀ it ∈ out, it.severity ≠ Severity.normal ∧ it.type = AttentionType.unmetVC := by
  intro vcs
  induction vcs with
  | nil =>
    intro out h it hit
    simp only [scanUnmetVCs] at h
    cases h
    simp at hit
  | cons vc vcs ih =>
    intro out h it hit
    simp only [scanUnmetVCs] at h
    split at h
    · exact ih out h it hit
    · rename_i node hnode
      split at h
      · exact ih out h it hit
      · rename_i hsev
        simp only [Option.bind_eq_bind, Option.bind_eq_some, Option.pure_def, Option.some.injEq] at h
        obtain ⟨mid, _, rest, hrest, hout⟩ := h
        subst hout
        rcases List.mem_cons.mp hit with rfl | hmem
        · exact ⟨hsev, rfl⟩
        · exact ih rest hrest it hmem

theorem scanStaleRoots_items (now : Int) :
    ∀ (ns : List MachineNode), ∀ it ∈ scanStaleRoots now ns,
      it.severity ≠ Severity.normal ∧ it.type = AttentionType.staleNode := by
  intro ns
  induction ns with
  | nil => intro it hit; simp [scanStaleRoots] at hit
  | cons node ns ih =>
    intro it hit
    rw [scanStaleRoots] at hit
    by_cases hsev :
        getSeverity (daysSince now node.updatedAt) ATTENTION_THRESHOLDS.staleness =
          Severity.normal
    · rw [if_pos hsev] at hit
      exact ih it hit
    · rw [if_neg hsev] at hit
      by_cases hblk : node.statusId = "blocked"
      · rw [if_pos hblk] at hit
        exact ih it hit
      · rw [if_neg hblk] at hit
        rcases List.mem_cons.mp hit with rfl | hmem
        · exact ⟨hsev, rfl⟩
        · exact ih it hmem

theorem scanAgingCaptures_items (now : Int) (allCaptures : List Capture) :
    ∀ it ∈ scanAgingCaptures now allCaptures,
      it.severity ≠ Severity.normal ∧ it.type = AttentionType.agingCapture := by
  intro it hit
  rw [scanAgingCaptures] at hit
  rcases hcs : allCaptures.filter (fun c => !c.processed) with _ | ⟨c0, cs⟩ <;>
    rw [hcs] at hit
  · simp at hit
  · dsimp only at hit
    by_cases hsev :
        getSeverity
          ((cs.map (fun c => daysSince now c.createdAt)).foldl max
            (daysSince now c0.createdAt))
          ATTENTION_THRESHOLDS.capture = Severity.normal
    · rw [if_neg (not_not_intro hsev)] at hit
      simp at hit
    · rw [if_pos hsev] at hit
      rcases List.mem_cons.mp hit with rfl | hmem
      · exact ⟨hsev, rfl⟩
      · simp at hmem

theorem runScan_decomp (db : DB) (fuel : Nat) (now : Int) (out : List AttentionItem) :
    runScan db fuel now = some out →
    ∃ d1 d2 d3,
      scanStaleProblems db.nodes fuel now
        (db.problems.filter (fun p => p.status ≠ "resolved")) = some d1 ∧
      scanBlockedMachines db.nodes db.statusChanges fuel now
        (db.nodes.filter (fun n => n.statusId == "blocked")) = some d2 ∧
      scanUnmetVCs db.nodes fuel now
        (db.victoryConditions.filter (fun vc => !vc.met)) = some d3 ∧
      out = List.insertionSort scanLe (d1 ++ d2 ++ d3 ++
        scanStaleRoots now
          (db.nodes.filter (fun n => n.parentId == 0 && n.type == NodeType.machine)) ++
        scanAgingCaptures now (db.captures.filter (fun c => !c.processed))) := by
  intro h
  simp only [runScan, Option.bind_eq_bind, Option.bind_eq_some, Option.pure_def,
    Option.some.injEq] at h
  obtain ⟨d1, h1, d2, h2, d3, h3, hout⟩ := h
  exact ⟨d1, d2, d3, h1, h2, h3, hout.symm⟩

theorem scanStaleRoots_nodeId (now : Int) :
    ∀ (ns : List MachineNode) (i : Nat),
      (∃ it ∈ scanStaleRoots now ns, it.nodeId = i) ↔
      ∃ node ∈ ns, node.id = i ∧
        getSeverity (daysSince now node.updatedAt) ATTENTION_THRESHOLDS.staleness ≠
          Severity.normal ∧
        node.statusId ≠ "blocked" := by
  intro ns
  induction ns with
  | nil => intro i; simp [scanStaleRoots]
  | cons node ns ih =>
    intro i
    rw [scanStaleRoots]
    by_cases hsev :
        getSeverity (daysSince now node.updatedAt) ATTENTION_THRESHOLDS.staleness =
          Severity.normal
    · rw [if_pos hsev]
      rw [ih]
      constructor
      · intro ⟨m, hm, rest⟩
        exact ⟨m, List.mem_cons_of_mem _ hm, rest⟩
      · intro ⟨m, hm, hi, hs, hb⟩
        rcases List.mem_cons.mp hm with rfl | hm
        · exact absurd hsev hs
        · exact ⟨m, hm, hi, hs, hb⟩
    · rw [if_neg hsev]
      by_cases hblk : node.statusId = "blocked"
      · rw [if_pos hblk]
        rw [ih]
        constructor
        · intro ⟨m, hm, rest⟩
          exact ⟨m, List.mem_cons_of_mem _ hm, rest⟩
        · intro ⟨m, hm, hi, hs, hb⟩
          rcases List.mem_cons.mp hm with rfl | hm
          · exact absurd hblk hb
          · exact ⟨m, hm, hi, hs, hb⟩
      · rw [if_neg hblk]
        constructor
        · intro ⟨it, hit, hni⟩
          rcases List.mem_cons.mp hit with rfl | hit
          · exact ⟨node, List.mem_cons_self _ _, hni, hsev, hblk⟩
          · obtain ⟨m, hm, rest⟩ := (ih i).mp ⟨it, hit, hni⟩
            exact ⟨m, List.mem_cons_of_mem _ hm, rest⟩
        · intro ⟨m, hm, hi, hs, hb⟩
          rcases List.mem_cons.mp hm with rfl | hm
          · exact ⟨_, List.mem_cons_self _ _, hi⟩
          · obtain ⟨it, hit, hni⟩ := (ih i).mpr ⟨m, hm, hi, hs, hb⟩
            exact ⟨it, List.mem_cons_of_mem _ hit, hni⟩

/-- A store with every collection empty. -/
def emptyDB : DB :=
  { nodes := [], edges := [], problems := [], victoryConditions := []
    statusChanges := [], captures := [], events := [] }

/-- A concrete node row used in concrete stores below. -/
def sampleNode (id parentId : Nat) (type : NodeType) (statusId : String)
    (updatedAt : Int) : MachineNode :=
  { id := id, parentId := parentId, type := type, label := "N" ++ toString id
    description := "", statusId := statusId, posX := 0, posY := 0, goal := ""
    bottleneck := "", notes := "", steps := [], toolUrl := ""
    proficiency := none, hasChildren := false, createdAt := 0
    updatedAt := updatedAt }

/-- Concrete items of the spec's ranking example. -/
def exItemRed5 : AttentionItem :=
  { id := "r5", type := .staleProblem, title := "", subtitle := "", nodeId := 1
    machineId := 1, severity := .red, ageDays := 5, link := "" }

def exItemCritical1 : AttentionItem :=
  { id := "c1", type := .staleProblem, title := "", subtitle := "", nodeId := 2
    machineId := 2, severity := .critical, ageDays := 1, link := "" }

def exItemAmber30 : AttentionItem :=
  { id := "a30", type := .staleProblem, title := "", subtitle := "", nodeId := 3
    machineId := 3, severity := .amber, ageDays := 30, link := "" }

/-- Claim C6: every item of the scan output has non-`normal` severity, and the
output is stably sorted by severity rank ascending (`critical` first) and,
within equal severity, by `ageDays` descending: any successful `runScan`
output is sorted under the comparator preorder `scanLe`, the sort preserves
the relative order of items with equal sort key (stability), and the concrete
items red/5, critical/1, amber/30 come out as critical/1, red/5, amber/30. -/
theorem runScan_output_ranked :
    (∀ (db : DB) (fuel : Nat) (now : Int) (out : List AttentionItem),
        runScan db fuel now = some out →
        (∀ it ∈ out, it.severity ≠ Severity.normal) ∧ List.Sorted scanLe out) ∧
    (∀ (l : List AttentionItem) (k : Nat × Int),
        (List.insertionSort scanLe l).filter (fun it => decide (sortKey it = k)) =
          l.filter (fun it => decide (sortKey it = k))) ∧
    List.insertionSort scanLe [exItemRed5, exItemCritical1, exItemAmber30] =
      [exItemCritical1, exItemRed5, exItemAmber30] := by
  refine ⟨?_, fun l k => filter_insertionSort k l, by decide⟩
  intro db fuel now out h
  obtain ⟨d1, d2, d3, h1, h2, h3, hout⟩ := runScan_decomp db fuel now out h
  subst hout
  constructor
  · intro it hit
    have hmem := (List.perm_insertionSort scanLe _).mem_iff.mp hit
    simp only [List.mem_append] at hmem
    rcases hmem with (((hm | hm) | hm) | hm) | hm
    · exact (scanStaleProblems_items _ _ _ _ _ h1 it hm).1
    · exact (scanBlockedMachines_items _ _ _ _ _ _ h2 it hm).1
    · exact (scanUnmetVCs_items _ _ _ _ _ h3 it hm).1
    · exact (scanStaleRoots_items _ _ it hm).1
    · exact (scanAgingCaptures_items _ _ it hm).1
  · exact List.sorted_insertionSort scanLe _

/-- A store whose scan yields one stale-root item. -/
def scanWitnessDB : DB :=
  { emptyDB with nodes := [sampleNode 2 0 .machine "building" 70] }

/-- The scan output of `scanWitnessDB` at day 100. -/
def scanWitnessOut : List AttentionItem := (runScan scanWitnessDB 10 100).getD []

/-- Witness for claim C6 at a concrete store. -/
theorem runScan_output_ranked_witness :
    (∀ it ∈ scanWitnessOut, it.severity ≠ Severity.normal) ∧
      List.Sorted scanLe scanWitnessOut :=
  runScan_output_ranked.1 scanWitnessDB 10 100 scanWitnessOut (by decide)

/-- Claim C7 (amended): a stale-root item for node id `i` is in the scan
output exactly when the store holds a top-level (`parentId = 0`) node of kind
`machine` with id `i`, non-`normal` staleness severity and `statusId`
different from `"blocked"` — every blocked root machine is excluded, whether
or not detector 2 (blocked machines) emitted an item for it. -/
theorem staleRoot_detector_amended :
    ∀ (db : DB) (fuel : Nat) (now : Int) (out : List AttentionItem),
      runScan db fuel now = some out →
      ∀ i : Nat,
        (∃ it ∈ out, it.type = AttentionType.staleNode ∧ it.nodeId = i) ↔
        ∃ node ∈ db.nodes, node.id = i ∧ node.parentId = 0 ∧
          node.type = NodeType.machine ∧
          getSeverity (daysSince now node.updatedAt) ATTENTION_THRESHOLDS.staleness ≠
            Severity.normal ∧
          node.statusId ≠ "blocked" := by
  intro db fuel now out h i
  obtain ⟨d1, d2, d3, h1, h2, h3, hout⟩ := runScan_decomp db fuel now out h
  subst hout
  constructor
  · intro ⟨it, hit, htype, hnid⟩
    have hmem := (List.perm_insertionSort scanLe _).mem_iff.mp hit
    simp only [List.mem_append] at hmem
    rcases hmem with (((hm | hm) | hm) | hm) | hm
    · exact absurd ((scanStaleProblems_items _ _ _ _ _ h1 it hm).2.symm.trans htype)
        (by decide)
    · exact absurd ((scanBlockedMachines_items _ _ _ _ _ _ h2 it hm).2.symm.trans htype)
        (by decide)
    · exact absurd ((scanUnmetVCs_items _ _ _ _ _ h3 it hm).2.symm.trans htype)
        (by decide)
    · obtain ⟨node, hn, hni, hsev, hblk⟩ :=
        (scanStaleRoots_nodeId now _ i).mp ⟨it, hm, hnid⟩
      rw [List.mem_filter] at hn
      refine ⟨node, hn.1, hni, ?_, ?_, hsev, hblk⟩
      · have := hn.2
        simp only [Bool.and_eq_true, beq_iff_eq] at this
        exact this.1
      · have := hn.2
        simp only [Bool.and_eq_true, beq_iff_eq] at this
        exact this.2
    · exact absurd ((scanAgingCaptures_items _ _ it hm).2.symm.trans htype)
        (by decide)
  · intro ⟨node, hn, hni, hpar, htype, hsev, hblk⟩
    have hfilt : node ∈ db.nodes.filter
        (fun n => n.parentId == 0 && n.type == NodeType.machine) := by
      rw [List.mem_filter]
      exact ⟨hn, by simp [hpar, htype]⟩
    obtain ⟨it, hit, hnid⟩ :=
      (scanStaleRoots_nodeId now _ i).mpr ⟨node, hfilt, hni, hsev, hblk⟩
    refine ⟨it, ?_, (scanStaleRoots_items now _ it hit).2, hnid⟩
    apply (List.perm_insertionSort scanLe _).mem_iff.mpr
    simp only [List.mem_append]
    exact Or.inl (Or.inr hit)

/-- A store holding one root machine that is blocked (severity-`normal` for
detector 2: blocked one day ago) and critically stale (no update for 30
days). -/
def blockedStaleDB : DB :=
  { emptyDB with
    nodes := [sampleNode 1 0 .machine "blocked" 70]
    statusChanges := [{ id := 5, machineNodeId := 1, fromStatusId := "building"
                        toStatusId := "blocked", changedAt := 99 }] }

/-- Claim C7 counterexample: at day 100 the store `blockedStaleDB` holds a
top-level machine that detector 2 dropped as severity-`normal` (blocked for
one day) and whose staleness severity is `critical`, yet the scan output is
empty — the stale-root detector skips it because its `statusId` is
`"blocked"`, so the node is not "still eligible for a stale-root item". -/
theorem staleRoot_blocked_counterexample :
    runScan blockedStaleDB 10 100 = some [] ∧
    sampleNode 1 0 .machine "blocked" 70 ∈ blockedStaleDB.nodes ∧
    (sampleNode 1 0 .machine "blocked" 70).parentId = 0 ∧
    (sampleNode 1 0 .machine "blocked" 70).type = NodeType.machine ∧
    getSeverity (daysSince 100 (sampleNode 1 0 .machine "blocked" 70).updatedAt)
      ATTENTION_THRESHOLDS.staleness = Severity.critical ∧
    getSeverity (daysSince 100 99) ATTENTION_THRESHOLDS.blocked = Severity.normal := by
  exact ⟨by decide, by decide, by decide, by decide, by decide, by decide⟩

/-- Witness for claim C7 at a concrete store: the non-blocked stale root of
`scanWitnessDB` does get a stale-root item. -/
theorem staleRoot_detector_amended_witness :
    ∃ it ∈ scanWitnessOut, it.type = AttentionType.staleNode ∧ it.nodeId = 2 :=
  (staleRoot_detector_amended scanWitnessDB 10 100 scanWitnessOut (by decide) 2).mpr
    ⟨sampleNode 2 0 .machine "building" 70, by decide, by decide, by decide,
      by decide, by decide, by decide⟩

/-- Witness for claim C5: the classifier's maximality at a concrete input. -/
theorem getSeverity_highest_tier_witness :
    tierRank Severity.amber ≤ tierRank (getSeverity 5 ⟨3, 7, 14⟩) :=
  (getSeverity_highest_tier.1 5 ⟨3, 7, 14⟩).2 Severity.amber (by norm_num [meetsTier])

/-! ## Root resolution (claim C3) -/

theorem nodeMapGet_mem {nodes : List MachineNode} {i : Nat} {p : MachineNode}
    (h : nodeMapGet nodes i = some p) : p ∈ nodes ∧ p.id = i := by
  unfold nodeMapGet at h
  obtain ⟨hne, hp⟩ := List.mem_getLast?_eq_getLast (Option.mem_def.mpr h)
  have hmem : p ∈ nodes.filter (fun n => n.id == i) := hp ▸ List.getLast_mem hne
  rw [List.mem_filter] at hmem
  exact ⟨hmem.1, by simpa using hmem.2⟩

/-- Parent pointers admit a strictly decreasing rank: no `parentId` cycles. -/
def RankOk (nodes : List MachineNode) (rank : Nat → Nat) : Prop :=
  ∀ r ∈ nodes, ∀ p ∈ nodes, p.id = r.parentId → rank p.id < rank r.id

/-- A one-node store whose single node is its own parent. -/
def cyclicNodes : List MachineNode := [sampleNode 1 1 .machine "building" 0]

theorem findRootLoop_cyclic :
    ∀ fuel : Nat, findRootLoop cyclicNodes fuel (sampleNode 1 1 .machine "building" 0) = none := by
  intro fuel
  induction fuel with
  | zero => decide
  | succ fuel ih =>
    rw [findRootLoop]
    simpa using ih

/-- Claim C3 counterexample: on a store whose single node is its own parent
(`depth` bound `1`), the root-resolution walk is still running after 50
upward steps — there is no visited-set guard in `findRootMachine`. -/
theorem resolveRoot_cycle_counterexample :
    findRootMachine cyclicNodes 50 1 = none ∧ cyclicNodes.length = 1 := by
  constructor
  · decide
  · decide

/-- Claim C3 (amended): on stores whose parent pointers admit a strictly
decreasing rank (in particular any store satisfying the no-cycle invariant,
taking `rank` = depth), the walk terminates within `rank(N)` upward steps and
returns a node whose `parentId` is empty or the last successfully resolved
ancestor (its parent pointer fails to resolve); but the code has no
visited-set guard: on the one-node cyclic store the walk is still running
after every finite number of steps. -/
theorem resolveRoot_amended :
    (∀ (nodes : List MachineNode) (rank : Nat → Nat), RankOk nodes rank →
      ∀ (fuel : Nat) (n : MachineNode), n ∈ nodes → rank n.id ≤ fuel →
        (findRootLoop nodes fuel n).isSome) ∧
    (∀ (nodes : List MachineNode) (fuel : Nat) (n r : MachineNode),
        findRootLoop nodes fuel n = some r →
        r.parentId = 0 ∨ nodeMapGet nodes r.parentId = none) ∧
    (∀ fuel : Nat, findRootMachine cyclicNodes fuel 1 = none) := by
  refine ⟨?_, ?_, ?_⟩
  · intro nodes rank hrk fuel
    induction fuel with
    | zero =>
      intro n hn hrank
      rw [findRootLoop]
      by_cases hpar : n.parentId = 0
      · rw [if_pos hpar]; rfl
      · rw [if_neg hpar]
        rcases hget : nodeMapGet nodes n.parentId with _ | p
        · rfl
        · obtain ⟨hpmem, hpid⟩ := nodeMapGet_mem hget
          exact absurd (hrk n hn p hpmem hpid) (by omega)
    | succ fuel ih =>
      intro n hn hrank
      rw [findRootLoop]
      by_cases hpar : n.parentId = 0
      · rw [if_pos hpar]; rfl
      · rw [if_neg hpar]
        rcases hget : nodeMapGet nodes n.parentId with _ | p
        · rfl
        · obtain ⟨hpmem, hpid⟩ := nodeMapGet_mem hget
          have := hrk n hn p hpmem hpid
          exact ih p hpmem (by omega)
  · intro nodes fuel
    induction fuel with
    | zero =>
      intro n r h
      rw [findRootLoop] at h
      by_cases hpar : n.parentId = 0
      · rw [if_pos hpar] at h; cases h; exact Or.inl hpar
      · rw [if_neg hpar] at h
        rcases hget : nodeMapGet nodes n.parentId with _ | p <;> rw [hget] at h
        · cases h; exact Or.inr hget
        · cases h
    | succ fuel ih =>
      intro n r h
      rw [findRootLoop] at h
      by_cases hpar : n.parentId = 0
      · rw [if_pos hpar] at h; cases h; exact Or.inl hpar
      · rw [if_neg hpar] at h
        rcases hget : nodeMapGet nodes n.parentId with _ | p <;> rw [hget] at h
        · cases h; exact Or.inr hget
        · exact ih p r h
  · intro fuel
    have h1 : nodeMapGet cyclicNodes 1 = some (sampleNode 1 1 .machine "building" 0) := by
      decide
    unfold findRootMachine
    rw [h1]
    dsimp only
    rw [findRootLoop_cyclic fuel]

/-- A two-node parent chain used as the C3 witness store. -/
def chainNodes : List MachineNode :=
  [sampleNode 1 0 .machine "building" 0, sampleNode 2 1 .machine "building" 0]

/-- Witness for claim C3 (amended) at a concrete acyclic store with an
explicit rank. -/
theorem resolveRoot_amended_witness :
    (findRootLoop chainNodes 1 (sampleNode 2 1 .machine "building" 0)).isSome :=
  resolveRoot_amended.1 chainNodes (fun i => i - 1) (by unfold RankOk; decide) 1
    (sampleNode 2 1 .machine "building" 0) (by decide) (by decide)

/-! ## History tracker (`useUndoRedo`, claim C9) -/

/-- A ReactFlow node of the visual projection: id, position, and the rest of
its payload (`data`: label, colors, …) which is *not* part of the structural
fingerprint. -/
structure FlowNode where
  id : Nat
  x : Int
  y : Int
  data : String
deriving DecidableEq, Repr

/-- A ReactFlow edge of the visual projection. -/
structure FlowEdge where
  id : Nat
  source : Nat
  target : Nat
deriving DecidableEq, Repr

/-- A `{nodes, edges}` snapshot of the visual projection. -/
structure FlowState where
  nodes : List FlowNode
  edges : List FlowEdge
deriving DecidableEq, Repr

/-- The structural fingerprint computed by `takeSnapshot`:
`JSON.stringify({n: nodes.map(n => (id,x,y)), e: edges.map(e => e.id)})`. -/
def fingerprint (s : FlowState) : List (Nat × Int × Int) × List Nat :=
  (s.nodes.map (fun n => (n.id, n.x, n.y)), s.edges.map (fun e => e.id))

/-- The state of the `useUndoRedo` hook: the two stacks, the `isUndoRedo`
replay flag, the `lastSaved` fingerprint (`none` for the initial empty
string) and the current visual state (`flowNodes`/`flowEdges`). -/
structure HistoryState where
  past : List FlowState
  future : List FlowState
  isUndoRedo : Bool
  lastSaved : Option (List (Nat × Int × Int) × List Nat)
  current : FlowState
deriving DecidableEq, Repr

def MAX_HISTORY : Nat := 50

/-- `takeSnapshot`: suppressed while replaying; deduplicated by fingerprint;
otherwise records the fingerprint, pushes the current state onto `past`
keeping the last `MAX_HISTORY` entries (`prev.slice(-(MAX_HISTORY - 1))`
then append) and clears `future`. -/
def takeSnapshot (st : HistoryState) : HistoryState :=
  if st.isUndoRedo then st
  else if some (fingerprint st.current) = st.lastSaved then st
  else
    { st with
      lastSaved := some (fingerprint st.current)
      past := (st.past.drop (st.past.length - (MAX_HISTORY - 1))) ++ [st.current]
      future := [] }

/-- `undo`: no-op on empty `past`; otherwise sets the replay flag, pops the
top of `past`, pushes the current state onto `future` and restores the
popped state as current. -/
def undo (st : HistoryState) : HistoryState :=
  match st.past.getLast? with
  | none => st
  | some prev =>
    { st with
      isUndoRedo := true
      past := st.past.dropLast
      future := st.future ++ [st.current]
      current := prev }

/-- `redo`: symmetric to `undo`, using `future`. -/
def redo (st : HistoryState) : HistoryState :=
  match st.future.getLast? with
  | none => st
  | some next =>
    { st with
      isUndoRedo := true
      future := st.future.dropLast
      past := st.past ++ [st.current]
      current := next }

/-- The `setTimeout(() => { isUndoRedo.current = false; }, 50)` callback. -/
def clearReplayFlag (st : HistoryState) : HistoryState :=
  { st with isUndoRedo := false }

/-- An external mutation of the visual state between snapshots
(`setFlowNodes` / `setFlowEdges` from drag or edit handlers). -/
def setCurrent (s : FlowState) (st : HistoryState) : HistoryState :=
  { st with current := s }

/-- Two visual states that differ only in a non-fingerprint field. -/
def exFlowA : FlowState := ⟨[⟨1, 0, 0, "a"⟩], []⟩

def exFlowB : FlowState := ⟨[⟨1, 0, 0, "b"⟩], []⟩

/-- The initial hook state with current visual state `exFlowA`. -/
def exHist0 : HistoryState :=
  { past := [], future := [], isUndoRedo := false, lastSaved := none
    current := exFlowA }

/-- Claim C9 counterexample: in the reachable state obtained by snapshotting
`exFlowA` and then changing only a non-fingerprint field (to `exFlowB`),
`takeSnapshot()` is deduplicated away, so a following `undo()` restores
`exFlowA` instead of the pre-snapshot state `exFlowB`. -/
theorem history_snapshot_undo_counterexample :
    (undo (takeSnapshot (setCurrent exFlowB (takeSnapshot exHist0)))).current = exFlowA ∧
    exFlowA ≠ exFlowB ∧
    fingerprint exFlowA = fingerprint exFlowB ∧
    (setCurrent exFlowB (takeSnapshot exHist0)).current = exFlowB := by
  exact ⟨by decide, by decide, by decide, by decide⟩

/-- The distinct visual states pushed in the eviction scenario. -/
def flowOfNat (i : Nat) : FlowState := ⟨[⟨1, Int.ofNat i, 0, ""⟩], []⟩

/-- Push `k` distinct snapshots (state change followed by `takeSnapshot`). -/
def pushSnapshots (k : Nat) (st : HistoryState) : HistoryState :=
  (List.range k).foldl (fun s i => takeSnapshot (setCurrent (flowOfNat (i + 1)) s)) st

set_option maxRecDepth 8000

/-- Claim C9 (amended): `undo()` is a no-op when `past` is empty; after a
`takeSnapshot()` that actually records (no replay in progress and the current
fingerprint differs from the last recorded one), `undo()` restores the
pre-snapshot state; after `undo()` on a non-empty `past`, `redo()` restores
the pre-undo state; `takeSnapshot()` is a no-op while replaying or when the
fingerprint is unchanged; and pushing 51 distinct snapshots leaves exactly 50
entries in `past` with the oldest evicted. -/
theorem history_tracker_amended :
    (∀ st : HistoryState, st.past = [] → undo st = st) ∧
    (∀ st : HistoryState, st.isUndoRedo = false →
      some (fingerprint st.current) ≠ st.lastSaved →
      (undo (takeSnapshot st)).current = st.current) ∧
    (∀ st : HistoryState, st.past ≠ [] → (redo (undo st)).current = st.current) ∧
    (∀ st : HistoryState, st.isUndoRedo = true → takeSnapshot st = st) ∧
    (∀ st : HistoryState, some (fingerprint st.current) = st.lastSaved →
      takeSnapshot st = st) ∧
    ((pushSnapshots 51 exHist0).past.length = 50 ∧
      (pushSnapshots 51 exHist0).past.head? = some (flowOfNat 2) ∧
      flowOfNat 1 ∉ (pushSnapshots 51 exHist0).past) := by
  refine ⟨?_, ?_, ?_, ?_, ?_, by decide, by decide, by decide⟩
  · intro st h
    unfold undo
    rw [h]
    rfl
  · intro st hflag hfp
    unfold takeSnapshot
    rw [if_neg (by simp [hflag]), if_neg hfp]
    unfold undo
    simp only [List.getLast?_concat]
  · intro st h
    rcases hlast : st.past.getLast? with _ | prev
    · exact absurd (List.getLast?_eq_none_iff.mp hlast) h
    · unfold undo
      rw [hlast]
      unfold redo
      simp only [List.getLast?_concat]
  · intro st h
    unfold takeSnapshot
    rw [if_pos h]
  · intro st h
    unfold takeSnapshot
    by_cases hflag : st.isUndoRedo
    · rw [if_pos hflag]
    · rw [if_neg hflag, if_pos h]

/-- Witness for claim C9 (amended) at the concrete initial state. -/
theorem history_tracker_amended_witness :
    (undo (takeSnapshot exHist0)).current = exHist0.current :=
  history_tracker_amended.2.1 exHist0 (by decide) (by decide)

/-! ## Subtree duplication (`duplicateMachine` / `cloneRecursive`,
src/components/Collapsible.tsx lines 727-786; claims C2, C10)

`uuid()` is modelled as a counter supply: the state carries `ctr` and each
fresh id is the current counter value; on stores whose ids are all below the
initial counter this yields exactly the "fresh id distinct from every
existing id" behaviour of uuids. -/

/-- The running state of a clone operation: the store, the uuid counter and
the old-id → new-id translation map (`idMap`, insertion ordered). -/
structure CloneState where
  db : DB
  ctr : Nat
  idMap : List (Nat × Nat)
deriving DecidableEq, Repr

/-- `idMap.get` (last `set` wins, as for a JS `Map`). -/
def idMapGet (m : List (Nat × Nat)) (i : Nat) : Option Nat :=
  ((m.filter (fun e => e.1 == i)).getLast?).map (fun e => e.2)

/-- `node.steps.map(s => ({...s, id: uuid(), done: false}))`. -/
def cloneSteps (ctr : Nat) : List SopStep → List SopStep × Nat
  | [] => ([], ctr)
  | s :: rest =>
    let tail := cloneSteps (ctr + 1) rest
    ({ s with id := ctr, done := false } :: tail.1, tail.2)

/-- The edge-cloning loop of `cloneRecursive` (lines 757-767): *every* edge at
the scope level is cloned with a fresh id and `parentId` set to the clone
scope; each endpoint is rewritten through the translation map when present
and kept verbatim otherwise (`idMap.get(edge.source) || edge.source`). -/
def cloneEdges (idMap : List (Nat × Nat)) (newId : Nat) (ctr : Nat) :
    List MachineEdge → List MachineEdge × Nat
  | [] => ([], ctr)
  | e :: rest =>
    let clone : MachineEdge :=
      { e with
        id := ctr
        parentId := newId
        source := (idMapGet idMap e.source).getD e.source
        target := (idMapGet idMap e.target).getD e.target }
    let tail := cloneEdges idMap newId (ctr + 1) rest
    (clone :: tail.1, tail.2)

/-- The victory-condition cloning loop (lines 769-777). -/
def cloneVCs (newId : Nat) (ctr : Nat) :
    List VictoryCondition → List VictoryCondition × Nat
  | [] => ([], ctr)
  | vc :: rest =>
    let clone : VictoryCondition := { vc with id := ctr, machineNodeId := newId }
    let tail := cloneVCs newId (ctr + 1) rest
    (clone :: tail.1, tail.2)

/-- The node-insertion step of `cloneRecursive` (lines 737-749): allocate the
fresh id, record it in the translation map, clone the embedded steps with
fresh ids and `done` reset, rewrite the parent, suffix the top-level label
with `" (Copy)"`, and insert the clone. -/
def cloneInsertNode (now : Int) (st : CloneState) (nodeId newParentId : Nat)
    (node : MachineNode) : CloneState :=
  let newId := st.ctr
  let steps := cloneSteps (st.ctr + 1) node.steps
  let clone : MachineNode :=
    { node with
      id := newId
      parentId := newParentId
      label := if newParentId = 0 then node.label ++ " (Copy)" else node.label
      createdAt := now
      updatedAt := now
      steps := steps.1 }
  { db := { st.db with nodes := st.db.nodes ++ [clone] }
    ctr := steps.2
    idMap := st.idMap ++ [(nodeId, newId)] }

/-- The edge step of `cloneRecursive` (lines 757-767): clone every edge of
scope `nodeId` into scope `newId`. -/
def cloneEdgesStep (st : CloneState) (nodeId newId : Nat) : CloneState :=
  let edges := st.db.edges.filter (fun e => e.parentId == nodeId)
  let clones := cloneEdges st.idMap newId st.ctr edges
  { st with
    db := { st.db with edges := st.db.edges ++ clones.1 }
    ctr := clones.2 }

/-- The victory-condition step of `cloneRecursive` (lines 769-777). -/
def cloneVCsStep (st : CloneState) (nodeId newId : Nat) : CloneState :=
  let vcs := st.db.victoryConditions.filter (fun vc => vc.machineNodeId == nodeId)
  let clones := cloneVCs newId st.ctr vcs
  { st with
    db := { st.db with
            victoryConditions := st.db.victoryConditions ++ clones.1 }
    ctr := clones.2 }

/-- `cloneRecursive(nodeId, newParentId)` (lines 733-778): fetch the node,
insert its fresh clone, then clone the children (queried from the live
store), then the edges of this scope level, then the victory conditions.
`fuel` bounds the recursion depth; with fuel exhausted the state is returned
unchanged (the JS code would recurse further). -/
def cloneRecursive (now : Int) : Nat → CloneState → Nat → Nat → CloneState
  | 0, st, _, _ => st
  | fuel + 1, st, nodeId, newParentId =>
    match st.db.nodes.find? (fun n => n.id == nodeId) with
    | none => st
    | some node =>
      let newId := st.ctr
      let st1 := cloneInsertNode now st nodeId newParentId node
      let children := st1.db.nodes.filter (fun n => n.parentId == nodeId)
      let st2 := children.foldl (fun s c => cloneRecursive now fuel s c.id newId) st1
      cloneVCsStep (cloneEdgesStep st2 nodeId newId) nodeId newId

/-- `duplicateMachine` (lines 727-786): clone the machine's subtree as a new
top-level machine (`cloneRecursive(machine.id, '')`). -/
def duplicateMachine (db : DB) (ctr : Nat) (now : Int) (fuel : Nat)
    (machineId : Nat) : CloneState :=
  cloneRecursive now fuel { db := db, ctr := ctr, idMap := [] } machineId 0

theorem cloneSteps_spec :
    ∀ (l : List SopStep) (c : Nat),
      (cloneSteps c l).2 = c + l.length ∧
      ∀ s ∈ (cloneSteps c l).1, c ≤ s.id ∧ s.id < c + l.length := by
  intro l
  induction l with
  | nil => intro c; simp [cloneSteps]
  | cons s rest ih =>
    intro c
    obtain ⟨ih2, ih1⟩ := ih (c + 1)
    rw [cloneSteps]
    constructor
    · rw [ih2]; simp only [List.length_cons]; omega
    · intro x hx
      rcases List.mem_cons.mp hx with rfl | hx
      · dsimp only; simp only [List.length_cons]; omega
      · have := ih1 x hx
        simp only [List.length_cons]
        omega

theorem cloneVCs_spec :
    ∀ (l : List VictoryCondition) (newId c : Nat),
      (cloneVCs newId c l).2 = c + l.length ∧
      ∀ v ∈ (cloneVCs newId c l).1, c ≤ v.id ∧ v.id < c + l.length := by
  intro l
  induction l with
  | nil => intro newId c; simp [cloneVCs]
  | cons vc rest ih =>
    intro newId c
    obtain ⟨ih2, ih1⟩ := ih newId (c + 1)
    rw [cloneVCs]
    constructor
    · rw [ih2]; simp only [List.length_cons]; omega
    · intro x hx
      rcases List.mem_cons.mp hx with rfl | hx
      · dsimp only; simp only [List.length_cons]; omega
      · have := ih1 x hx
        simp only [List.length_cons]
        omega

theorem cloneEdges_spec :
    ∀ (l : List MachineEdge) (m : List (Nat × Nat)) (newId c : Nat),
      (cloneEdges m newId c l).2 = c + l.length ∧
      ∀ k : Nat, (cloneEdges m newId c l).1[k]? = (l[k]?).map (fun e =>
        { e with
          id := c + k
          parentId := newId
          source := (idMapGet m e.source).getD e.source
          target := (idMapGet m e.target).getD e.target }) := by
  intro l
  induction l with
  | nil => intro m newId c; simp [cloneEdges]
  | cons e rest ih =>
    intro m newId c
    obtain ⟨ih2, ih1⟩ := ih m newId (c + 1)
    rw [cloneEdges]
    constructor
    · rw [ih2]; simp only [List.length_cons]; omega
    · intro k
      cases k with
      | zero => simp
      | succ k =>
        have := ih1 k
        simpa [Nat.add_assoc, Nat.add_comm 1 k] using this

theorem cloneEdges_bounds (l : List MachineEdge) (m : List (Nat × Nat)) (newId c : Nat) :
    ∀ x ∈ (cloneEdges m newId c l).1, c ≤ x.id ∧ x.id < c + l.length := by
  induction l generalizing c with
  | nil => intro x hx; simp [cloneEdges] at hx
  | cons e rest ih =>
    intro x hx
    rw [cloneEdges] at hx
    rcases List.mem_cons.mp hx with rfl | hx
    · dsimp only; simp only [List.length_cons]; omega
    · have := ih (c + 1) x hx
      simp only [List.length_cons]
      omega

theorem cloneVCs_mem (l : List VictoryCondition) (newId c : Nat) :
    ∀ x ∈ (cloneVCs newId c l).1, c ≤ x.id ∧ x.id < c + l.length := by
  intro x hx
  exact (cloneVCs_spec l newId c).2 x hx

/-- State `b` extends state `a` by only *appending* rows whose ids (and, for
nodes, embedded step ids) are fresh — at least `a.ctr` — while problems,
status changes, captures and events are untouched. -/
def ClonePreserves (a b : CloneState) : Prop :=
  a.ctr ≤ b.ctr ∧
  (∃ l, b.db.nodes = a.db.nodes ++ l ∧
    ∀ n ∈ l, (a.ctr ≤ n.id ∧ n.id < b.ctr) ∧
      ∀ s ∈ n.steps, a.ctr ≤ s.id ∧ s.id < b.ctr) ∧
  (∃ l, b.db.edges = a.db.edges ++ l ∧ ∀ e ∈ l, a.ctr ≤ e.id ∧ e.id < b.ctr) ∧
  (∃ l, b.db.victoryConditions = a.db.victoryConditions ++ l ∧
    ∀ v ∈ l, a.ctr ≤ v.id ∧ v.id < b.ctr) ∧
  b.db.problems = a.db.problems ∧
  b.db.statusChanges = a.db.statusChanges ∧
  b.db.captures = a.db.captures ∧
  b.db.events = a.db.events

theorem clonePreserves_refl (a : CloneState) : ClonePreserves a a := by
  refine ⟨le_refl _, ⟨[], by simp, by simp⟩, ⟨[], by simp, by simp⟩,
    ⟨[], by simp, by simp⟩, rfl, rfl, rfl, rfl⟩

theorem clonePreserves_trans {a b c : CloneState}
    (hab : ClonePreserves a b) (hbc : ClonePreserves b c) : ClonePreserves a c := by
  obtain ⟨hk1, ⟨n1, hn1, hnb1⟩, ⟨e1, he1, heb1⟩, ⟨v1, hv1, hvb1⟩, hp1, hs1, hc1, hev1⟩ := hab
  obtain ⟨hk2, ⟨n2, hn2, hnb2⟩, ⟨e2, he2, heb2⟩, ⟨v2, hv2, hvb2⟩, hp2, hs2, hc2, hev2⟩ := hbc
  refine ⟨le_trans hk1 hk2, ⟨n1 ++ n2, ?_, ?_⟩, ⟨e1 ++ e2, ?_, ?_⟩,
    ⟨v1 ++ v2, ?_, ?_⟩, hp2.trans hp1, hs2.trans hs1, hc2.trans hc1, hev2.trans hev1⟩
  · rw [hn2, hn1, List.append_assoc]
  · intro n hn
    rcases List.mem_append.mp hn with hn | hn
    · obtain ⟨⟨h1, h2⟩, hs⟩ := hnb1 n hn
      exact ⟨⟨h1, lt_of_lt_of_le h2 hk2⟩, fun s hsm =>
        ⟨(hs s hsm).1, lt_of_lt_of_le (hs s hsm).2 hk2⟩⟩
    · obtain ⟨⟨h1, h2⟩, hs⟩ := hnb2 n hn
      exact ⟨⟨le_trans hk1 h1, h2⟩, fun s hsm =>
        ⟨le_trans hk1 (hs s hsm).1, (hs s hsm).2⟩⟩
  · rw [he2, he1, List.append_assoc]
  · intro e he
    rcases List.mem_append.mp he with he | he
    · exact ⟨(heb1 e he).1, lt_of_lt_of_le (heb1 e he).2 hk2⟩
    · exact ⟨le_trans hk1 (heb2 e he).1, (heb2 e he).2⟩
  · rw [hv2, hv1, List.append_assoc]
  · intro v hv
    rcases List.mem_append.mp hv with hv | hv
    · exact ⟨(hvb1 v hv).1, lt_of_lt_of_le (hvb1 v hv).2 hk2⟩
    · exact ⟨le_trans hk1 (hvb2 v hv).1, (hvb2 v hv).2⟩

theorem clonePreserves_foldl {α : Type} (f : CloneState → α → CloneState)
    (hf : ∀ s x, ClonePreserves s (f s x)) :
    ∀ (l : List α) (s : CloneState), ClonePreserves s (List.foldl f s l) := by
  intro l
  induction l with
  | nil => intro s; exact clonePreserves_refl s
  | cons x l ih =>
    intro s
    rw [List.foldl_cons]
    exact clonePreserves_trans (hf s x) (ih (f s x))

theorem cloneInsertNode_preserves (now : Int) (st : CloneState)
    (nodeId newParentId : Nat) (node : MachineNode) :
    ClonePreserves st (cloneInsertNode now st nodeId newParentId node) := by
  obtain ⟨hctr, hbnd⟩ := cloneSteps_spec node.steps (st.ctr + 1)
  unfold cloneInsertNode
  refine ⟨?_, ⟨_, rfl, ?_⟩, ⟨[], by simp, by simp⟩, ⟨[], by simp, by simp⟩,
    rfl, rfl, rfl, rfl⟩
  · dsimp only
    omega
  · intro n hn
    rcases List.mem_cons.mp hn with rfl | hn
    · refine ⟨⟨le_refl _, ?_⟩, ?_⟩
      · dsimp only; omega
      · intro s hs
        have := hbnd s hs
        dsimp only
        omega
    · simp at hn

theorem cloneEdgesStep_preserves (st : CloneState) (nodeId newId : Nat) :
    ClonePreserves st (cloneEdgesStep st nodeId newId) := by
  unfold cloneEdgesStep
  obtain ⟨hctr, -⟩ := cloneEdges_spec
    (st.db.edges.filter (fun e => e.parentId == nodeId)) st.idMap newId st.ctr
  refine ⟨?_, ⟨[], by simp, by simp⟩, ⟨_, rfl, ?_⟩, ⟨[], by simp, by simp⟩,
    rfl, rfl, rfl, rfl⟩
  · dsimp only
    omega
  · intro e he
    have := cloneEdges_bounds
      (st.db.edges.filter (fun x => x.parentId == nodeId)) st.idMap newId st.ctr e he
    dsimp only
    omega

theorem cloneVCsStep_preserves (st : CloneState) (nodeId newId : Nat) :
    ClonePreserves st (cloneVCsStep st nodeId newId) := by
  unfold cloneVCsStep
  obtain ⟨hctr, -⟩ := cloneVCs_spec
    (st.db.victoryConditions.filter (fun vc => vc.machineNodeId == nodeId)) newId st.ctr
  refine ⟨?_, ⟨[], by simp, by simp⟩, ⟨[], by simp, by simp⟩, ⟨_, rfl, ?_⟩,
    rfl, rfl, rfl, rfl⟩
  · dsimp only
    omega
  · intro v hv
    have := cloneVCs_mem
      (st.db.victoryConditions.filter (fun x => x.machineNodeId == nodeId)) newId st.ctr v hv
    dsimp only
    omega

theorem cloneRecursive_preserves (now : Int) :
    ∀ (fuel : Nat) (st : CloneState) (nodeId newParentId : Nat),
      ClonePreserves st (cloneRecursive now fuel st nodeId newParentId) := by
  intro fuel
  induction fuel with
  | zero => intro st nodeId newParentId; exact clonePreserves_refl st
  | succ fuel ih =>
    intro st nodeId newParentId
    rw [cloneRecursive]
    rcases hfind : st.db.nodes.find? (fun n => n.id == nodeId) with _ | node <;>
      simp only [hfind]
    · exact clonePreserves_refl st
    · refine clonePreserves_trans (cloneInsertNode_preserves now st nodeId newParentId node)
        (clonePreserves_trans
          (clonePreserves_foldl
            (fun s (c : MachineNode) => cloneRecursive now fuel s c.id st.ctr)
            (fun s c => ih s c.id st.ctr) _ _)
          (clonePreserves_trans (cloneEdgesStep_preserves _ nodeId st.ctr)
            (cloneVCsStep_preserves _ nodeId st.ctr)))

/-- A concrete store for the duplication scenarios: root machine 1 with
children 2 and 3, an internal edge 2 → 3 and an edge 2 → 99 leaving the
subtree, both owned at scope 1. -/
def exCloneDB : DB :=
  { emptyDB with
    nodes := [sampleNode 1 0 .machine "building" 0,
              sampleNode 2 1 .sop "" 0,
              sampleNode 3 1 .tool "live" 0]
    edges := [{ id := 7, parentId := 1, source := 2, target := 3,
                relationship := "feeds", label := "" },
              { id := 8, parentId := 1, source := 2, target := 99,
                relationship := "feeds", label := "" }] }

theorem cloneEdges_length :
    ∀ (l : List MachineEdge) (m : List (Nat × Nat)) (newId c : Nat),
      (cloneEdges m newId c l).1.length = l.length := by
  intro l
  induction l with
  | nil => intro m newId c; rfl
  | cons e rest ih =>
    intro m newId c
    rw [cloneEdges]
    simp [ih m newId (c + 1)]

/-- Claim C2 counterexample: duplicating machine 1 of `exCloneDB` clones the
edge 2 → 99 although its target 99 lies outside the cloned subtree (no such
node exists at all): the result holds a fresh edge with `target = 99` — the
edge is rewritten where the map knows the endpoint and kept verbatim
otherwise, not silently dropped. -/
theorem clone_edge_not_dropped_counterexample :
    ({ id := 104, parentId := 100, source := 101, target := 99,
       relationship := "feeds", label := "" } : MachineEdge) ∈
      (duplicateMachine exCloneDB 100 0 10 1).db.edges ∧
    (duplicateMachine exCloneDB 100 0 10 1).db.edges.length =
      exCloneDB.edges.length + 2 ∧
    (∀ n ∈ exCloneDB.nodes, n.id ≠ 99) := by
  exact ⟨by decide, by decide, by decide⟩

/-- Claim C2 (amended): in a subtree clone, every edge owned at a cloned
scope level is cloned — none is dropped: the edge-cloning step maps the k-th
edge of the scope to exactly one clone with a fresh id, `parentId` rewritten
to the clone scope, and each endpoint rewritten through the translation map
when present in it (endpoints inside the cloned subtree become the
corresponding fresh ids) and kept verbatim otherwise.  Concretely,
duplicating machine 1 of `exCloneDB` clones both scope-1 edges: the internal
edge 2 → 3 with both endpoints rewritten to the fresh ids 101 → 102, and the
outgoing edge 2 → 99 with its external target kept. -/
theorem clone_internal_edges_amended :
    (∀ (l : List MachineEdge) (m : List (Nat × Nat)) (newId c : Nat),
      (cloneEdges m newId c l).1.length = l.length ∧
      ∀ k : Nat, (cloneEdges m newId c l).1[k]? = (l[k]?).map (fun e =>
        { e with
          id := c + k
          parentId := newId
          source := (idMapGet m e.source).getD e.source
          target := (idMapGet m e.target).getD e.target })) ∧
    (duplicateMachine exCloneDB 100 0 10 1).db.edges =
      [{ id := 7, parentId := 1, source := 2, target := 3,
         relationship := "feeds", label := "" },
       { id := 8, parentId := 1, source := 2, target := 99,
         relationship := "feeds", label := "" },
       { id := 103, parentId := 100, source := 101, target := 102,
         relationship := "feeds", label := "" },
       { id := 104, parentId := 100, source := 101, target := 99,
         relationship := "feeds", label := "" }] := by
  refine ⟨?_, by decide⟩
  intro l m newId c
  exact ⟨cloneEdges_length l m newId c, (cloneEdges_spec l m newId c).2⟩

/-- Claim C10: duplication only inserts new rows: the result extends the
store by appended node, edge and victory-condition rows whose ids (and
embedded step ids) are all at least the initial uuid counter, while
problems, status changes, captures and events are untouched
(`ClonePreserves`); hence on a store whose ids all lie below the counter,
every inserted row's id differs from every pre-existing row's id and the
original subtree is left entirely unchanged. -/
theorem duplicate_insert_only :
    (∀ (db : DB) (ctr : Nat) (now : Int) (fuel : Nat) (machineId : Nat),
      ClonePreserves ⟨db, ctr, []⟩ (duplicateMachine db ctr now fuel machineId)) ∧
    (∀ (db : DB) (ctr : Nat) (now : Int) (fuel : Nat) (machineId : Nat),
      (∀ n ∈ db.nodes, n.id < ctr) → (∀ e ∈ db.edges, e.id < ctr) →
      (∀ v ∈ db.victoryConditions, v.id < ctr) →
      (∀ a ∈ (duplicateMachine db ctr now fuel machineId).db.nodes,
        a ∉ db.nodes → ∀ b ∈ db.nodes, a.id ≠ b.id) ∧
      (∀ a ∈ (duplicateMachine db ctr now fuel machineId).db.edges,
        a ∉ db.edges → ∀ b ∈ db.edges, a.id ≠ b.id) ∧
      (∀ a ∈ (duplicateMachine db ctr now fuel machineId).db.victoryConditions,
        a ∉ db.victoryConditions → ∀ b ∈ db.victoryConditions, a.id ≠ b.id)) := by
  have hpres : ∀ (db : DB) (ctr : Nat) (now : Int) (fuel : Nat) (machineId : Nat),
      ClonePreserves ⟨db, ctr, []⟩ (duplicateMachine db ctr now fuel machineId) :=
    fun db ctr now fuel machineId =>
      cloneRecursive_preserves now fuel ⟨db, ctr, []⟩ machineId 0
  refine ⟨hpres, ?_⟩
  intro db ctr now fuel machineId hn he hv
  obtain ⟨-, ⟨ln, hln, hbn⟩, ⟨le', hle, hbe⟩, ⟨lv, hlv, hbv⟩, -, -, -, -⟩ :=
    hpres db ctr now fuel machineId
  refine ⟨?_, ?_, ?_⟩
  · intro a ha hnot b hb
    rw [hln] at ha
    rcases List.mem_append.mp ha with ha | ha
    · exact absurd ha hnot
    · have h1 : ctr ≤ a.id := (hbn a ha).1.1
      have h2 := hn b hb
      omega
  · intro a ha hnot b hb
    rw [hle] at ha
    rcases List.mem_append.mp ha with ha | ha
    · exact absurd ha hnot
    · have h1 : ctr ≤ a.id := (hbe a ha).1
      have h2 := he b hb
      omega
  · intro a ha hnot b hb
    rw [hlv] at ha
    rcases List.mem_append.mp ha with ha | ha
    · exact absurd ha hnot
    · have h1 : ctr ≤ a.id := (hbv a ha).1
      have h2 := hv b hb
      omega

/-- Witness for claim C10 at the concrete store `exCloneDB`: the three
cloned rows all get ids distinct from the original subtree's ids. -/
theorem duplicate_insert_only_witness :
    (duplicateMachine exCloneDB 100 0 10 1).db.nodes.length = 6 ∧
    ∀ a ∈ (duplicateMachine exCloneDB 100 0 10 1).db.nodes,
      a ∉ exCloneDB.nodes → ∀ b ∈ exCloneDB.nodes, a.id ≠ b.id :=
  ⟨by decide,
    (duplicate_insert_only.2 exCloneDB 100 0 10 1 (by decide) (by decide)
      (by decide)).1⟩

/-! ## Status-transition logging (`handleUpdateNode`,
src/pages/Whiteboard.tsx lines 1200-1231; claim C8) -/

/-- The partial update object passed to `handleUpdateNode`, restricted to the
fields its logging logic inspects (`statusId`, `notes`); `none` models an
absent key. -/
structure NodeUpdates where
  statusId : Option String
  notes : Option String
deriving DecidableEq, Repr

/-- `db.nodes.update(id, {...updates, updatedAt: new Date()})` applied to a
row (restricted to the modelled fields). -/
def applyUpdates (u : NodeUpdates) (now : Int) (n : MachineNode) : MachineNode :=
  { n with
    statusId := match u.statusId with | some s => s | none => n.statusId
    notes := match u.notes with | some t => t | none => n.notes
    updatedAt := now }

/-- The StatusChange row appended by `handleUpdateNode`. -/
def mkStatusChange (ctr : Nat) (id : Nat) (fromS toS : String) (now : Int) :
    StatusChange :=
  { id := ctr
    machineNodeId := id
    fromStatusId := fromS
    toStatusId := toS
    changedAt := now }

/-- The `status-change` Event row appended by `handleUpdateNode`. -/
def mkStatusEvent (ctr : Nat) (id : Nat) (fromS toS : String) (now : Int) :
    MachineEvent :=
  { id := ctr
    nodeId := id
    eventType := "status-change"
    timestamp := now
    previousValue := some fromS
    newValue := some toS
    metadata := none }

/-- The `note-updated` Event row appended by `handleUpdateNode`. -/
def mkNoteEvent (ctr : Nat) (id : Nat) (now : Int) : MachineEvent :=
  { id := ctr
    nodeId := id
    eventType := "note-updated"
    timestamp := now
    previousValue := none
    newValue := none
    metadata := none }

/-- `handleUpdateNode`: when the update carries a *truthy* `statusId`
(present and non-empty, `if (updates.statusId)`) and the node, as found in
the canvas projection `dbNodes`, currently has a different status, append one
StatusChange row and one `status-change` Event; when the update carries
`notes`, append a `note-updated` Event; finally update the node row.  Fresh
uuids are `ctr`, `ctr + 1`, `ctr + 2`. -/
def handleUpdateNode (db : DB) (dbNodes : List MachineNode) (ctr : Nat)
    (now : Int) (id : Nat) (u : NodeUpdates) : DB :=
  let db1 : DB :=
    match u.statusId with
    | none => db
    | some s =>
      if s ≠ "" then
        match dbNodes.find? (fun n => n.id == id) with
        | none => db
        | some currentNode =>
          if currentNode.statusId ≠ s then
            { db with
              statusChanges := db.statusChanges ++
                [mkStatusChange ctr id currentNode.statusId s now]
              events := db.events ++
                [mkStatusEvent (ctr + 1) id currentNode.statusId s now] }
          else db
      else db
  let db2 : DB :=
    match u.notes with
    | none => db1
    | some _ =>
      { db1 with events := db1.events ++ [mkNoteEvent (ctr + 2) id now] }
  { db2 with
    nodes := db2.nodes.map (fun n => if n.id == id then applyUpdates u now n else n) }

/-- A blocked node used by the status-logging scenarios. -/
def exBlockedNode : MachineNode := sampleNode 1 0 .machine "blocked" 0

/-- A store holding just `exBlockedNode`. -/
def exStatusDB : DB := { emptyDB with nodes := [exBlockedNode] }

/-- Claim C8 counterexample: updating node 1 (current status `"blocked"`)
with `statusId = ""` changes the stored status to `""` but appends neither a
StatusChange row nor any Event — the guard `if (updates.statusId)` is falsy
for the empty string, so both audit writes are skipped for this status
mutation. -/
theorem status_transition_empty_counterexample :
    (handleUpdateNode exStatusDB [exBlockedNode] 500 100 1 ⟨some "", none⟩).statusChanges
        = [] ∧
    (handleUpdateNode exStatusDB [exBlockedNode] 500 100 1 ⟨some "", none⟩).events = [] ∧
    ((handleUpdateNode exStatusDB [exBlockedNode] 500 100 1
        ⟨some "", none⟩).nodes.find? (fun n => n.id == 1)).map
          (fun n => n.statusId) = some "" ∧
    exBlockedNode.statusId = "blocked" := by
  exact ⟨by decide, by decide, by decide, by decide⟩

/-- Claim C8 (amended): for every node update whose `statusId` is present,
non-empty and different from the current status of the node as found in the
canvas projection, exactly one StatusChange row (recording the from- and
to-status) and exactly one Event with eventType `status-change` are appended;
an update that sets `statusId` to the empty string (falsy in the guard), or
whose node is absent from the projection, records neither. -/
theorem status_transition_amended :
    ∀ (db : DB) (dbNodes : List MachineNode) (ctr : Nat) (now : Int) (id : Nat)
      (u : NodeUpdates) (s : String) (cur : MachineNode),
      u.statusId = some s → s ≠ "" →
      dbNodes.find? (fun n => n.id == id) = some cur → cur.statusId ≠ s →
      (handleUpdateNode db dbNodes ctr now id u).statusChanges =
        db.statusChanges ++ [mkStatusChange ctr id cur.statusId s now] ∧
      ∃ tail,
        (handleUpdateNode db dbNodes ctr now id u).events =
          db.events ++ [mkStatusEvent (ctr + 1) id cur.statusId s now] ++ tail ∧
        ∀ e ∈ tail, e.eventType ≠ "status-change" := by
  intro db dbNodes ctr now id u s cur hs hne hfind hdiff
  unfold handleUpdateNode
  rw [hs]
  simp only [if_pos hne, hfind, if_pos hdiff]
  rcases hn : u.notes with _ | t
  · exact ⟨rfl, [], by simp, by simp⟩
  · refine ⟨rfl, [mkNoteEvent (ctr + 2) id now], by simp, ?_⟩
    intro e he
    rw [List.mem_singleton.mp he]
    simp [mkNoteEvent]

/-- Witness for claim C8 (amended): updating the blocked node to `"live"`
appends exactly the StatusChange row and the status-change Event. -/
theorem status_transition_amended_witness :
    (handleUpdateNode exStatusDB [exBlockedNode] 500 100 1
        ⟨some "live", none⟩).statusChanges =
      exStatusDB.statusChanges ++ [mkStatusChange 500 1 "blocked" "live" 100] :=
  (status_transition_amended exStatusDB [exBlockedNode] 500 100 1
    ⟨some "live", none⟩ "live" exBlockedNode (by decide) (by decide) (by decide)
    (by decide)).1

/-! ## Cascading delete (`prepareDelete` / `confirmDelete`,
src/components/Collapsible.tsx lines 664-723, and `handleDeleteNode`,
src/pages/Whiteboard.tsx lines 1280-1295; claims C1, C4) -/

/-- `deleteRecursive` (the body of `confirmDelete`): re-query the children
from the live store, recursively delete each child subtree, then delete the
edges scoped under this node, the problems, victory conditions and status
changes keyed to it, and finally the node row.  `fuel` bounds the recursion
depth (the JS recursion is unbounded). -/
def deleteRecursive : Nat → DB → Nat → DB
  | 0, db, _ => db
  | fuel + 1, db, nodeId =>
    let children := db.nodes.filter (fun n => n.parentId == nodeId)
    let db1 := children.foldl (fun d c => deleteRecursive fuel d c.id) db
    { db1 with
      edges := db1.edges.filter (fun e => !(e.parentId == nodeId))
      problems := db1.problems.filter (fun p => !(p.machineNodeId == nodeId))
      victoryConditions :=
        db1.victoryConditions.filter (fun v => !(v.machineNodeId == nodeId))
      statusChanges :=
        db1.statusChanges.filter (fun sc => !(sc.machineNodeId == nodeId))
      nodes := db1.nodes.filter (fun n => !(n.id == nodeId)) }

/-- The per-category deletion summary of `prepareDelete`. -/
structure DeletionSummary where
  nodes : Nat
  sops : Nat
  tools : Nat
  skills : Nat
  notes : Nat
  problems : Nat
  edges : Nat
deriving DecidableEq, Repr

/-- Component-wise sum of two summaries (the accumulation in the loop of
`countRecursive`). -/
def addSummary (a b : DeletionSummary) : DeletionSummary :=
  { nodes := a.nodes + b.nodes
    sops := a.sops + b.sops
    tools := a.tools + b.tools
    skills := a.skills + b.skills
    notes := a.notes + b.notes
    problems := a.problems + b.problems
    edges := a.edges + b.edges }

/-- The per-kind tally of one child in the loop of `countRecursive`. -/
def tallyChild (t : DeletionSummary) (child : MachineNode) : DeletionSummary :=
  match child.type with
  | .machine => { t with nodes := t.nodes + 1 }
  | .sop => { t with sops := t.sops + 1 }
  | .tool => { t with tools := t.tools + 1 }
  | .skill => { t with skills := t.skills + 1 }
  | .note => { t with notes := t.notes + 1 }

/-- `countRecursive` (the dry-run of `prepareDelete`, lines 669-696): count
the edges and problems of this scope, tally each child by its kind, and add
the child subtree's counts; the store is never mutated. -/
def countRecursive : Nat → DB → Nat → DeletionSummary
  | 0, _, _ => ⟨0, 0, 0, 0, 0, 0, 0⟩
  | fuel + 1, db, nodeId =>
    let children := db.nodes.filter (fun n => n.parentId == nodeId)
    let edgeCount := (db.edges.filter (fun e => e.parentId == nodeId)).length
    let probCount := (db.problems.filter (fun p => p.machineNodeId == nodeId)).length
    children.foldl
      (fun totals child =>
        addSummary (tallyChild totals child) (countRecursive fuel db child.id))
      ⟨0, 0, 0, 0, 0, probCount, edgeCount⟩

/-- `prepareDelete` (lines 698-700): dry-run count of the subtree, then count
the root machine itself (`summary.nodes += 1`). -/
def prepareDeleteSummary (fuel : Nat) (db : DB) (machineId : Nat) : DeletionSummary :=
  let s := countRecursive fuel db machineId
  { s with nodes := s.nodes + 1 }

/-- `handleDeleteNode` (src/pages/Whiteboard.tsx lines 1280-1295): delete the
*direct* children node rows one by one, the edges whose source or target is
the node, the problems and victory conditions keyed to it, the node row
itself, and append a `node-deleted` Event. -/
def whiteboardDeleteNode (db : DB) (ctr : Nat) (now : Int) (nodeId : Nat) : DB :=
  let children := db.nodes.filter (fun n => n.parentId == nodeId)
  let nodes1 := children.foldl
    (fun ns c => ns.filter (fun n => !(n.id == c.id))) db.nodes
  { db with
    nodes := nodes1.filter (fun n => !(n.id == nodeId))
    edges := db.edges.filter (fun e => !(e.source == nodeId || e.target == nodeId))
    problems := db.problems.filter (fun p => !(p.machineNodeId == nodeId))
    victoryConditions :=
      db.victoryConditions.filter (fun v => !(v.machineNodeId == nodeId))
    events := db.events ++
      [{ id := ctr
         nodeId := nodeId
         eventType := "node-deleted"
         timestamp := now
         previousValue := none
         newValue := none
         metadata := none }] }

/-- A concrete store for the deletion scenarios: root machine 1 with child
procedure 2 and grandchild note 3; an edge at top-level scope referencing
machine 1, an edge inside scope 1, and a problem on the child. -/
def exDeleteDB : DB :=
  { emptyDB with
    nodes := [sampleNode 1 0 .machine "building" 0,
              sampleNode 2 1 .sop "" 0,
              sampleNode 3 2 .note "" 0]
    edges := [{ id := 20, parentId := 0, source := 1, target := 9,
                relationship := "feeds", label := "" },
              { id := 21, parentId := 1, source := 2, target := 2,
                relationship := "feeds", label := "" }]
    problems := [{ id := 30, machineNodeId := 2, title := "p", description := ""
                   severity := "medium", status := "open", createdAt := 0 }] }

/-- Claim C1 counterexample: cascading-deleting machine 1 of `exDeleteDB`
removes all three node rows and the edge scoped under node 1, but the edge
at the top-level scope whose `source` is node 1 survives and still
references the deleted id — the delete removes edges by `parentId` scope,
not by `source`/`target`; and the Whiteboard variant `handleDeleteNode` does
not even recurse: the grandchild node 3 survives it. -/
theorem cascadingDelete_counterexample :
    (deleteRecursive 10 exDeleteDB 1).nodes = [] ∧
    (deleteRecursive 10 exDeleteDB 1).edges =
      [{ id := 20, parentId := 0, source := 1, target := 9,
         relationship := "feeds", label := "" }] ∧
    ((deleteRecursive 10 exDeleteDB 1).edges.filter
      (fun e => e.source == 1 || e.target == 1)).length = 1 ∧
    (deleteRecursive 10 exDeleteDB 1).problems = [] ∧
    ((whiteboardDeleteNode exDeleteDB 900 0 1).nodes.filter
      (fun n => n.id == 3)).length = 1 := by
  exact ⟨by decide, by decide, by decide, by decide, by decide⟩

/-- Claim C4 counterexample: for root machine 1 with one child procedure
(kind `sop`) 2, the dry-run summary counts the procedure under `sops`, not
under `nodes`: the `nodes` count is 1 (the machine itself), not 2. -/
theorem deletionSummary_counterexample :
    (prepareDeleteSummary 10 exDeleteDB 1).nodes = 1 ∧
    (prepareDeleteSummary 10 exDeleteDB 1).nodes ≠ 2 ∧
    (prepareDeleteSummary 10 exDeleteDB 1).sops = 1 ∧
    (prepareDeleteSummary 10 exDeleteDB 1).notes = 1 ∧
    (prepareDeleteSummary 10 exDeleteDB 1).problems = 1 ∧
    (prepareDeleteSummary 10 exDeleteDB 1).edges = 1 := by
  exact ⟨by decide, by decide, by decide, by decide, by decide, by decide⟩

/-- `Reaches nodes a b`: an upward parent chain of rows leads from id `a` to
id `b` (zero steps allowed). -/
inductive Reaches (nodes : List MachineNode) : Nat → Nat → Prop
  | refl (a : Nat) : Reaches nodes a a
  | step {a b : Nat} (r : MachineNode) (hr : r ∈ nodes) (hid : r.id = a)
      (h : Reaches nodes r.parentId b) : Reaches nodes a b

/-- `ChainLen nodes a b k`: an upward parent chain of exactly `k` rows leads
from id `a` to id `b`. -/
inductive ChainLen (nodes : List MachineNode) : Nat → Nat → Nat → Prop
  | refl (a : Nat) : ChainLen nodes a a 0
  | step {a b k : Nat} (r : MachineNode) (hr : r ∈ nodes) (hid : r.id = a)
      (h : ChainLen nodes r.parentId b k) : ChainLen nodes a b (k + 1)

theorem Reaches.trans {nodes : List MachineNode} {a b c : Nat}
    (hab : Reaches nodes a b) (hbc : Reaches nodes b c) : Reaches nodes a c := by
  induction hab with
  | refl => exact hbc
  | step r hr hid h ih => exact Reaches.step r hr hid (ih hbc)

theorem Reaches.mono {nodes nodes' : List MachineNode} {a b : Nat}
    (hsub : ∀ r ∈ nodes, r ∈ nodes') (h : Reaches nodes a b) :
    Reaches nodes' a b := by
  induction h with
  | refl => exact Reaches.refl _
  | step r hr hid h ih => exact Reaches.step r (hsub r hr) hid ih

theorem ChainLen.toReaches {nodes : List MachineNode} {a b k : Nat}
    (h : ChainLen nodes a b k) : Reaches nodes a b := by
  induction h with
  | refl => exact Reaches.refl _
  | step r hr hid h ih => exact Reaches.step r hr hid ih

/-- All ids in the store are distinct (the Dexie primary-key invariant). -/
def NoDupIds (nodes : List MachineNode) : Prop := (nodes.map (fun r => r.id)).Nodup

theorem rows_unique {nodes : List MachineNode} (hnd : NoDupIds nodes)
    {r r' : MachineNode} (hr : r ∈ nodes) (hr' : r' ∈ nodes) (hid : r.id = r'.id) :
    r = r' :=
  List.inj_on_of_nodup_map hnd hr hr' hid

theorem reaches_source_row {nodes : List MachineNode} {a b : Nat}
    (h : Reaches nodes a b) (hne : a ≠ b) : ∃ r ∈ nodes, r.id = a := by
  cases h with
  | refl => exact absurd rfl hne
  | step r hr hid _ => exact ⟨r, hr, hid⟩

theorem reaches_cases {nodes : List MachineNode} {a b : Nat}
    (h : Reaches nodes a b) :
    a = b ∨ ∃ r ∈ nodes, r.id = a ∧ Reaches nodes r.parentId b := by
  cases h with
  | refl => exact Or.inl rfl
  | step r hr hid h => exact Or.inr ⟨r, hr, hid, h⟩

theorem reaches_rank {nodes : List MachineNode} {rank : Nat → Nat}
    (hrk : RankOk nodes rank) :
    ∀ {a b : Nat}, Reaches nodes a b → (∃ rb ∈ nodes, rb.id = b) →
      a = b ∨ rank b < rank a := by
  intro a b h
  induction h with
  | refl => intro _; exact Or.inl rfl
  | step r hr hid' h ih =>
    intro hex
    obtain ⟨rb, hrb, hid⟩ := hex
    right
    rcases ih ⟨rb, hrb, hid⟩ with heq | hlt
    · have := hrk r hr rb hrb (hid.trans heq.symm)
      rw [hid] at this
      rw [← hid']
      exact this
    · rw [← hid] at hlt ⊢
      have hnb : r.parentId ≠ rb.id := fun hh => by
        rw [hh] at hlt; exact lt_irrefl _ hlt
      have h2 : Reaches nodes r.parentId rb.id := by rw [hid]; exact h
      obtain ⟨rm, hrm, hrmid⟩ := reaches_source_row h2 hnb
      have h3 := hrk r hr rm hrm hrmid
      rw [hrmid] at h3
      rw [← hid']
      omega

theorem reaches_linear {nodes : List MachineNode} (hnd : NoDupIds nodes)
    {a x y : Nat} (hx : Reaches nodes a x) (hy : Reaches nodes a y) :
    Reaches nodes x y ∨ Reaches nodes y x := by
  induction hx generalizing y with
  | refl => exact Or.inl hy
  | step r hr hid h ih =>
    cases hy with
    | refl => exact Or.inr (Reaches.step r hr hid h)
    | step r' hr' hid' h' =>
      have : r = r' := rows_unique hnd hr hr' (hid.trans hid'.symm)
      subst this
      exact ih h'

/-- Two distinct children of the same scope cannot reach each other. -/
theorem children_not_reach {nodes : List MachineNode} {rank : Nat → Nat}
    (hnd : NoDupIds nodes) (hrk : RankOk nodes rank)
    {c : Nat} {ci cj : MachineNode} (hci : ci ∈ nodes) (hcj : cj ∈ nodes)
    (hpi : ci.parentId = c) (hpj : cj.parentId = c) (hne : ci.id ≠ cj.id) :
    ¬ Reaches nodes ci.id cj.id := by
  intro hreach
  rcases reaches_cases hreach with heq | ⟨r, hr, hid, h⟩
  · exact hne heq
  · have : r = ci := rows_unique hnd hr hci hid
    subst this
    rw [hpi] at h
    rcases reaches_rank hrk h ⟨cj, hcj, rfl⟩ with heq2 | h1
    · have := hrk cj hcj cj hcj (by rw [hpj, heq2])
      omega
    · have hcne : c ≠ cj.id := fun hh => by rw [hh] at h1; omega
      obtain ⟨rc, hrc, hrcid⟩ := reaches_source_row h hcne
      have h2 := hrk cj hcj rc hrc (by rw [hrcid, hpj])
      rw [hrcid] at h2
      omega

theorem nat_beq_eq_decide (k n : Nat) : (k == n) = decide (k = n) :=
  Bool.coe_iff_coe.mp (by simp)

/-- The ids visited by `deleteRecursive` (children-first, the node last) paired
with the node rows that survive, computed from the node collection alone. -/
def delWalk : Nat → List MachineNode → Nat → List Nat × List MachineNode
  | 0, nodes, _ => ([], nodes)
  | fuel + 1, nodes, nodeId =>
    let children := nodes.filter (fun n => n.parentId == nodeId)
    let acc := children.foldl
      (fun (p : List Nat × List MachineNode) c =>
        let q := delWalk fuel p.2 c.id
        (p.1 ++ q.1, q.2))
      (([] : List Nat), nodes)
    (acc.1 ++ [nodeId], acc.2.filter (fun r => !(r.id == nodeId)))

/-- The same visit, enumerated on the *unchanging* store. -/
def staticWalk : Nat → List MachineNode → Nat → List Nat
  | 0, _, _ => []
  | fuel + 1, nodes, nodeId =>
    ((nodes.filter (fun n => n.parentId == nodeId)).flatMap
      (fun c => staticWalk fuel nodes c.id)) ++ [nodeId]

/-- The descendant *rows* visited, enumerated on the unchanging store. -/
def staticRows : Nat → List MachineNode → Nat → List MachineNode
  | 0, _, _ => []
  | fuel + 1, nodes, nodeId =>
    (nodes.filter (fun n => n.parentId == nodeId)).flatMap
      (fun c => c :: staticRows fuel nodes c.id)

/-- The effect of deleting the scopes `vs` on every keyed collection, with the
node collection replaced by `ns`. -/
def delApplied (db0 : DB) (vs : List Nat) (ns : List MachineNode) : DB :=
  { nodes := ns
    edges := db0.edges.filter (fun e => !(vs.contains e.parentId))
    problems := db0.problems.filter (fun p => !(vs.contains p.machineNodeId))
    victoryConditions :=
      db0.victoryConditions.filter (fun v => !(vs.contains v.machineNodeId))
    statusChanges :=
      db0.statusChanges.filter (fun sc => !(vs.contains sc.machineNodeId))
    captures := db0.captures
    events := db0.events }

theorem filter_mask_nil {α : Type} (key : α → Nat) (l : List α) :
    l.filter (fun x => !(([] : List Nat).contains (key x))) = l :=
  List.filter_eq_self.mpr (fun x _ => by simp)

theorem filter_mask_append {α : Type} (key : α → Nat) (a b : List Nat) (l : List α) :
    (l.filter (fun x => !(a.contains (key x)))).filter
        (fun x => !(b.contains (key x))) =
      l.filter (fun x => !((a ++ b).contains (key x))) := by
  rw [List.filter_filter]
  apply List.filter_congr
  intro x _
  apply Bool.coe_iff_coe.mp
  simp
  tauto

theorem filter_mask_singleton {α : Type} (key : α → Nat) (vs : List Nat) (n : Nat)
    (l : List α) :
    (l.filter (fun x => !(vs.contains (key x)))).filter (fun x => !(key x == n)) =
      l.filter (fun x => !((vs ++ [n]).contains (key x))) := by
  rw [List.filter_filter]
  apply List.filter_congr
  intro x _
  apply Bool.coe_iff_coe.mp
  simp [nat_beq_eq_decide]
  tauto

theorem delApplied_nil (db : DB) : delApplied db [] db.nodes = db := by
  unfold delApplied
  simp only [filter_mask_nil]

theorem delApplied_merge (db : DB) (vs ws : List Nat) (ns ms : List MachineNode) :
    delApplied (delApplied db vs ns) ws ms = delApplied db (vs ++ ws) ms := by
  unfold delApplied
  simp only [filter_mask_append]

theorem delWalk_snd :
    ∀ (fuel : Nat) (nodes : List MachineNode) (nodeId : Nat),
      (delWalk fuel nodes nodeId).2 =
        nodes.filter (fun r => !((delWalk fuel nodes nodeId).1.contains r.id)) := by
  intro fuel
  induction fuel with
  | zero =>
    intro nodes nodeId
    rw [delWalk]
    exact (filter_mask_nil (fun r => r.id) nodes).symm
  | succ fuel ih =>
    intro nodes nodeId
    rw [delWalk]
    have aux : ∀ (cs : List MachineNode) (p : List Nat × List MachineNode),
        p.2 = nodes.filter (fun r => !(p.1.contains r.id)) →
        (cs.foldl
          (fun (p : List Nat × List MachineNode) c =>
            let q := delWalk fuel p.2 c.id
            (p.1 ++ q.1, q.2)) p).2 =
          nodes.filter (fun r =>
            !((cs.foldl
              (fun (p : List Nat × List MachineNode) c =>
                let q := delWalk fuel p.2 c.id
                (p.1 ++ q.1, q.2)) p).1.contains r.id)) := by
      intro cs
      induction cs with
      | nil => intro p hp; exact hp
      | cons c cs ihc =>
        intro p hp
        rw [List.foldl_cons]
        apply ihc
        simp only
        rw [ih p.2 c.id, hp]
        simp only [filter_mask_append]
    have hstart : (([] : List Nat), nodes).2 =
        nodes.filter (fun r => !((([] : List Nat), nodes).1.contains r.id)) :=
      (filter_mask_nil (fun r => r.id) nodes).symm
    simp only
    rw [aux _ _ hstart]
    simp only [filter_mask_singleton]

theorem deleteRecursive_delApplied :
    ∀ (fuel : Nat) (db : DB) (nodeId : Nat),
      deleteRecursive fuel db nodeId =
        delApplied db (delWalk fuel db.nodes nodeId).1 (delWalk fuel db.nodes nodeId).2 := by
  intro fuel
  induction fuel with
  | zero =>
    intro db nodeId
    rw [deleteRecursive, delWalk]
    exact (delApplied_nil db).symm
  | succ fuel ih =>
    intro db nodeId
    rw [deleteRecursive, delWalk]
    have aux : ∀ (cs : List MachineNode) (vs : List Nat) (ns : List MachineNode),
        cs.foldl (fun d c => deleteRecursive fuel d c.id) (delApplied db vs ns) =
          delApplied db
            (cs.foldl
              (fun (p : List Nat × List MachineNode) c =>
                let q := delWalk fuel p.2 c.id
                (p.1 ++ q.1, q.2)) (vs, ns)).1
            (cs.foldl
              (fun (p : List Nat × List MachineNode) c =>
                let q := delWalk fuel p.2 c.id
                (p.1 ++ q.1, q.2)) (vs, ns)).2 := by
      intro cs
      induction cs with
      | nil => intro vs ns; rfl
      | cons c cs ihc =>
        intro vs ns
        rw [List.foldl_cons, List.foldl_cons]
        have h1 : deleteRecursive fuel (delApplied db vs ns) c.id =
            delApplied db (vs ++ (delWalk fuel ns c.id).1) (delWalk fuel ns c.id).2 := by
          rw [ih (delApplied db vs ns) c.id]
          have hns : (delApplied db vs ns).nodes = ns := rfl
          rw [hns, delApplied_merge]
        rw [h1]
        exact ihc (vs ++ (delWalk fuel ns c.id).1) (delWalk fuel ns c.id).2
    have hfold := aux (db.nodes.filter (fun n => n.parentId == nodeId)) [] db.nodes
    rw [delApplied_nil] at hfold
    simp only
    rw [hfold]
    unfold delApplied
    simp only [filter_mask_singleton]

theorem staticWalk_reaches :
    ∀ (fuel : Nat) (nodes : List MachineNode) (n : Nat),
      ∀ v ∈ staticWalk fuel nodes n, Reaches nodes v n := by
  intro fuel
  induction fuel with
  | zero => intro nodes n v hv; simp [staticWalk] at hv
  | succ fuel ih =>
    intro nodes n v hv
    rw [staticWalk] at hv
    rcases List.mem_append.mp hv with hv | hv
    · rw [List.mem_flatMap] at hv
      obtain ⟨c, hc, hvc⟩ := hv
      rw [List.mem_filter] at hc
      have hpar : c.parentId = n := by simpa using hc.2
      refine (ih nodes c.id v hvc).trans (Reaches.step c hc.1 rfl ?_)
      rw [hpar]
      exact Reaches.refl n
    · rw [List.mem_singleton.mp hv]
      exact Reaches.refl n

theorem chainlen_snoc {nodes : List MachineNode} :
    ∀ {k d n : Nat}, ChainLen nodes d n (k + 1) →
      ∃ c ∈ nodes, c.parentId = n ∧ ChainLen nodes d c.id k := by
  intro k
  induction k with
  | zero =>
    intro d n h
    cases h with
    | step r hr hid h' =>
      cases h' with
      | refl => exact ⟨r, hr, rfl, hid ▸ ChainLen.refl _⟩
  | succ k ihk =>
    intro d n h
    cases h with
    | step r hr hid h' =>
      obtain ⟨c, hc, hcp, hchain⟩ := ihk h'
      exact ⟨c, hc, hcp, ChainLen.step r hr hid hchain⟩

theorem chain_in_staticWalk :
    ∀ (k fuel : Nat) (nodes : List MachineNode) (d n : Nat),
      ChainLen nodes d n k → k < fuel → d ∈ staticWalk fuel nodes n := by
  intro k
  induction k with
  | zero =>
    intro fuel nodes d n h hk
    cases h
    rcases fuel with _ | fuel
    · omega
    · rw [staticWalk]
      exact List.mem_append.mpr (Or.inr (List.mem_singleton.mpr rfl))
  | succ k ihk =>
    intro fuel nodes d n h hk
    rcases fuel with _ | fuel
    · omega
    · obtain ⟨c, hc, hcp, hchain⟩ := chainlen_snoc h
      rw [staticWalk]
      apply List.mem_append.mpr
      left
      rw [List.mem_flatMap]
      refine ⟨c, ?_, ihk fuel nodes d c.id hchain (by omega)⟩
      rw [List.mem_filter]
      exact ⟨hc, by simp [hcp]⟩

theorem delWalk_masked {nodes : List MachineNode} {rank : Nat → Nat}
    (hnd : NoDupIds nodes) (hrk : RankOk nodes rank) :
    ∀ (fuel : Nat) (c : Nat) (vs : List Nat),
      (∀ r ∈ nodes, Reaches nodes r.id c → r.id ∉ vs) →
      (delWalk fuel (nodes.filter (fun r => !(vs.contains r.id))) c).1 =
        staticWalk fuel nodes c := by
  intro fuel
  induction fuel with
  | zero => intro c vs _; rw [delWalk, staticWalk]
  | succ fuel ih =>
    intro c vs hmask
    rw [delWalk, staticWalk]
    simp only
    have hchildren :
        (nodes.filter (fun r => !(vs.contains r.id))).filter
            (fun n => n.parentId == c) =
          nodes.filter (fun n => n.parentId == c) := by
      rw [List.filter_comm]
      apply List.filter_eq_self.mpr
      intro a ha
      rw [List.mem_filter] at ha
      have hpar : a.parentId = c := by simpa using ha.2
      have : a.id ∉ vs := hmask a ha.1 (Reaches.step a ha.1 rfl
        (by rw [hpar]; exact Reaches.refl c))
      simpa using this
    rw [hchildren]
    have aux : ∀ (csub : List MachineNode) (w : List Nat) (acc0 : List Nat),
        (∀ x ∈ csub, x ∈ nodes ∧ x.parentId = c) →
        (csub.map (fun x => x.id)).Nodup →
        (∀ x ∈ csub, ∀ r ∈ nodes, Reaches nodes r.id x.id → r.id ∉ vs ++ w) →
        (csub.foldl
          (fun (p : List Nat × List MachineNode) c' =>
            let q := delWalk fuel p.2 c'.id
            (p.1 ++ q.1, q.2))
          (acc0, nodes.filter (fun r => !((vs ++ w).contains r.id)))).1 =
          acc0 ++ csub.flatMap (fun x => staticWalk fuel nodes x.id) := by
      intro csub
      induction csub with
      | nil => intro w acc0 _ _ _; simp
      | cons x xs ihx =>
        intro w acc0 hchil hndc hw
        rw [List.foldl_cons]
        simp only
        have hq1 : (delWalk fuel
            (nodes.filter (fun r => !((vs ++ w).contains r.id))) x.id).1 =
            staticWalk fuel nodes x.id := by
          apply ih x.id (vs ++ w)
          intro r hr hreach
          exact hw x (List.mem_cons_self _ _) r hr hreach
        have hq2 : (delWalk fuel
            (nodes.filter (fun r => !((vs ++ w).contains r.id))) x.id).2 =
            nodes.filter (fun r =>
              !((vs ++ (w ++ staticWalk fuel nodes x.id)).contains r.id)) := by
          rw [delWalk_snd, hq1]
          simp only [filter_mask_append]
          rw [List.append_assoc]
        rw [hq1, hq2]
        have hstep := ihx (w ++ staticWalk fuel nodes x.id) (acc0 ++ staticWalk fuel nodes x.id)
          (fun y hy => hchil y (List.mem_cons_of_mem _ hy))
          (by
            rw [List.map_cons, List.nodup_cons] at hndc
            exact hndc.2)
          (by
            intro y hy r hr hreach
            rw [List.mem_append]
            push_neg
            constructor
            · have := hw y (List.mem_cons_of_mem _ hy) r hr hreach
              rw [List.mem_append] at this
              push_neg at this
              exact this.1
            · rw [List.mem_append]
              push_neg
              constructor
              · have := hw y (List.mem_cons_of_mem _ hy) r hr hreach
                rw [List.mem_append] at this
                push_neg at this
                exact this.2
              · intro hrin
                have hrx : Reaches nodes r.id x.id :=
                  staticWalk_reaches fuel nodes x.id r.id hrin
                obtain ⟨hx, hpx⟩ := hchil x (List.mem_cons_self _ _)
                obtain ⟨hy', hpy⟩ := hchil y (List.mem_cons_of_mem _ hy)
                have hne : x.id ≠ y.id := by
                  rw [List.map_cons, List.nodup_cons] at hndc
                  intro hh
                  exact hndc.1 (hh ▸ List.mem_map_of_mem (fun z => z.id) hy)
                rcases reaches_linear hnd hrx hreach with hr1 | hr2
                · exact children_not_reach hnd hrk hx hy' hpx hpy hne hr1
                · exact children_not_reach hnd hrk hy' hx hpy hpx (Ne.symm hne) hr2)
        rw [hstep, List.append_assoc]
        rw [List.flatMap_cons]
    have := aux (nodes.filter (fun n => n.parentId == c)) [] []
      (fun x hx => by
        rw [List.mem_filter] at hx
        exact ⟨hx.1, by simpa using hx.2⟩)
      (by
        have hsub : ((nodes.filter (fun n => n.parentId == c)).map (fun x => x.id)).Sublist
            (nodes.map (fun x => x.id)) :=
          (List.filter_sublist nodes).map (fun x => x.id)
        exact hnd.sublist hsub)
      (by
        intro x hx r hr hreach
        rw [List.mem_filter] at hx
        have hpar : x.parentId = c := by simpa using hx.2
        rw [List.append_nil]
        exact hmask r hr (hreach.trans (Reaches.step x hx.1 rfl
          (by rw [hpar]; exact Reaches.refl c))))
    rw [List.append_nil] at this
    rw [this]
    simp

theorem delWalk_eq_staticWalk {nodes : List MachineNode} {rank : Nat → Nat}
    (hnd : NoDupIds nodes) (hrk : RankOk nodes rank) (fuel : Nat) (c : Nat) :
    (delWalk fuel nodes c).1 = staticWalk fuel nodes c := by
  have h := delWalk_masked hnd hrk fuel c [] (by simp)
  simpa only [filter_mask_nil] using h

/-- A scope id cannot reach one of its own children under an acyclicity rank. -/
theorem parent_not_reach {nodes : List MachineNode} {rank : Nat → Nat}
    (hrk : RankOk nodes rank) {c : Nat} {x : MachineNode} (hx : x ∈ nodes)
    (hpx : x.parentId = c) : ¬ Reaches nodes c x.id := by
  intro hreach
  by_cases hcx : c = x.id
  · exact absurd (hrk x hx x hx (by rw [hpx, hcx])) (by omega)
  · have h1 : rank x.id < rank c := by
      rcases reaches_rank hrk hreach ⟨x, hx, rfl⟩ with heq | hlt
      · exact absurd heq hcx
      · exact hlt
    obtain ⟨rc, hrc, hrcid⟩ := reaches_source_row hreach hcx
    have h2 := hrk x hx rc hrc (by rw [hrcid, hpx])
    rw [hrcid] at h2
    omega

theorem staticWalk_nodup {nodes : List MachineNode} {rank : Nat → Nat}
    (hnd : NoDupIds nodes) (hrk : RankOk nodes rank) :
    ∀ (fuel : Nat) (c : Nat), (staticWalk fuel nodes c).Nodup := by
  intro fuel
  induction fuel with
  | zero => intro c; rw [staticWalk]; exact List.nodup_nil
  | succ fuel ih =>
    intro c
    rw [staticWalk]
    rw [List.nodup_append]
    refine ⟨?_, List.nodup_singleton c, ?_⟩
    · rw [List.nodup_flatMap]
      constructor
      · intro x _; exact ih x.id
      · have hpw : (nodes.filter (fun n => n.parentId == c)).Pairwise
            (fun a b => a.id ≠ b.id) := by
          rw [← List.pairwise_map]
          have hsub : ((nodes.filter (fun n => n.parentId == c)).map
              (fun x => x.id)).Sublist (nodes.map (fun x => x.id)) :=
            (List.filter_sublist nodes).map (fun x => x.id)
          exact hnd.sublist hsub
        apply List.Pairwise.imp_of_mem ?_ hpw
        intro a b ha hb hab v hva hvb
        rw [List.mem_filter] at ha hb
        have hpa : a.parentId = c := by simpa using ha.2
        have hpb : b.parentId = c := by simpa using hb.2
        have hra : Reaches nodes v a.id := staticWalk_reaches fuel nodes a.id v hva
        have hrb : Reaches nodes v b.id := staticWalk_reaches fuel nodes b.id v hvb
        rcases reaches_linear hnd hra hrb with h1 | h2
        · exact children_not_reach hnd hrk ha.1 hb.1 hpa hpb hab h1
        · exact children_not_reach hnd hrk hb.1 ha.1 hpb hpa (Ne.symm hab) h2
    · intro v hv hvc
      rw [List.mem_singleton.mp hvc] at hv
      rw [List.mem_flatMap] at hv
      obtain ⟨x, hx, hvx⟩ := hv
      rw [List.mem_filter] at hx
      have hpar : x.parentId = c := by simpa using hx.2
      exact parent_not_reach hrk hx.1 hpar (staticWalk_reaches fuel nodes x.id c hvx)

theorem foldl_delete_by_id :
    ∀ (cs : List MachineNode) (ns : List MachineNode),
      cs.foldl (fun acc c => acc.filter (fun n => !(n.id == c.id))) ns =
        ns.filter (fun n => !((cs.map (fun c => c.id)).contains n.id)) := by
  intro cs
  induction cs with
  | nil =>
    intro ns
    rw [List.foldl_nil, List.map_nil]
    exact (filter_mask_nil (fun r => r.id) ns).symm
  | cons c cs ihc =>
    intro ns
    rw [List.foldl_cons, ihc, List.filter_filter, List.map_cons]
    apply List.filter_congr
    intro x _
    apply Bool.coe_iff_coe.mp
    simp [nat_beq_eq_decide]
    tauto

/-- Claim C1 (amended): the cascading delete is fully characterised by its
visited-id list: every collection of the result equals the corresponding
input collection filtered by the visited ids — node rows whose id was
visited, Problems, VictoryConditions and StatusChanges keyed to a visited
id, and Edges *scoped under* (`parentId`) a visited id are removed, while
captures, events and every other row survive, so Edge rows at non-visited
scope levels keep referencing deleted ids.  On stores whose parent pointers
admit a decreasing rank (no cycles) and with distinct ids, the visited ids
comprise the node itself and every transitive descendant whose chain is
shorter than the recursion bound, and nothing outside the subtree.  The
Whiteboard variant `handleDeleteNode` removes only the node, its *direct*
children, the edges whose source or target is the node, and the Problems
and VictoryConditions keyed to it, and appends a `node-deleted` event. -/
theorem cascadingDelete_amended :
    (∀ (fuel : Nat) (db : DB) (n : Nat),
        deleteRecursive fuel db n =
          delApplied db (delWalk fuel db.nodes n).1 (delWalk fuel db.nodes n).2 ∧
        (delWalk fuel db.nodes n).2 =
          db.nodes.filter (fun r => !((delWalk fuel db.nodes n).1.contains r.id))) ∧
    (∀ (fuel : Nat) (db : DB) (n : Nat) (rank : Nat → Nat),
        NoDupIds db.nodes → RankOk db.nodes rank →
        (∀ (d k : Nat), ChainLen db.nodes d n k → k < fuel →
          d ∈ (delWalk fuel db.nodes n).1) ∧
        (∀ v ∈ (delWalk fuel db.nodes n).1, Reaches db.nodes v n)) ∧
    (∀ (db : DB) (ctr : Nat) (now : Int) (n : Nat),
        whiteboardDeleteNode db ctr now n =
          { nodes := (db.nodes.filter (fun r =>
              !(((db.nodes.filter (fun x => x.parentId == n)).map
                  (fun c => c.id)).contains r.id))).filter (fun r => !(r.id == n))
            edges := db.edges.filter (fun e => !(e.source == n || e.target == n))
            problems := db.problems.filter (fun p => !(p.machineNodeId == n))
            victoryConditions :=
              db.victoryConditions.filter (fun v => !(v.machineNodeId == n))
            statusChanges := db.statusChanges
            captures := db.captures
            events := db.events ++
              [{ id := ctr, nodeId := n, eventType := "node-deleted"
                 timestamp := now, previousValue := none, newValue := none
                 metadata := none }] }) := by
  refine ⟨?_, ?_, ?_⟩
  · intro fuel db n
    exact ⟨deleteRecursive_delApplied fuel db n, delWalk_snd fuel db.nodes n⟩
  · intro fuel db n rank hnd hrk
    constructor
    · intro d k hchain hk
      rw [delWalk_eq_staticWalk hnd hrk]
      exact chain_in_staticWalk k fuel db.nodes d n hchain hk
    · intro v hv
      rw [delWalk_eq_staticWalk hnd hrk] at hv
      exact staticWalk_reaches fuel db.nodes n v hv
  · intro db ctr now n
    unfold whiteboardDeleteNode
    simp only [foldl_delete_by_id]

/-- Witness for claim C1 (amended) at the concrete store `exDeleteDB`: the
grandchild note 3 (parent chain 3 → 2 → 1) is a visited id of the cascading
delete of machine 1. -/
theorem cascadingDelete_amended_witness :
    (3 : Nat) ∈ (delWalk 10 exDeleteDB.nodes 1).1 :=
  (cascadingDelete_amended.2.1 10 exDeleteDB 1 (fun i => i)
      (by unfold NoDupIds; decide) (by unfold RankOk; decide)).1 3 2
    (ChainLen.step (sampleNode 3 2 .note "" 0) (by decide) rfl
      (ChainLen.step (sampleNode 2 1 .sop "" 0) (by decide) rfl (ChainLen.refl 1)))
    (by omega)

/-! ## The dry-run summary versus the delete (claim C4) -/

def kindCount (t : NodeType) (rows : List MachineNode) : Nat :=
  rows.countP (fun r => r.type == t)

def keyedSum (vs : List Nat) (cnt : Nat → Nat) : Nat := (vs.map cnt).sum

/-- The summary aggregated over a list of visited descendant rows and a list
of visited scope ids. -/
def segSummary (db : DB) (rows : List MachineNode) (vs : List Nat) : DeletionSummary :=
  { nodes := kindCount .machine rows
    sops := kindCount .sop rows
    tools := kindCount .tool rows
    skills := kindCount .skill rows
    notes := kindCount .note rows
    problems := keyedSum vs
      (fun v => (db.problems.filter (fun p => p.machineNodeId == v)).length)
    edges := keyedSum vs
      (fun v => (db.edges.filter (fun e => e.parentId == v)).length) }

theorem addSummary_zero_right (t : DeletionSummary) :
    addSummary t ⟨0, 0, 0, 0, 0, 0, 0⟩ = t := by
  simp [addSummary]

theorem addSummary_assoc (a b c : DeletionSummary) :
    addSummary (addSummary a b) c = addSummary a (addSummary b c) := by
  simp [addSummary]
  omega

theorem addSummary_comm (a b : DeletionSummary) :
    addSummary a b = addSummary b a := by
  simp [addSummary]
  omega

theorem segSummary_append (db : DB) (r1 r2 : List MachineNode) (v1 v2 : List Nat) :
    segSummary db (r1 ++ r2) (v1 ++ v2) =
      addSummary (segSummary db r1 v1) (segSummary db r2 v2) := by
  simp [segSummary, addSummary, kindCount, keyedSum, List.countP_append]

theorem segSummary_zero (db : DB) : segSummary db [] [] = ⟨0, 0, 0, 0, 0, 0, 0⟩ := by
  simp [segSummary, kindCount, keyedSum]

theorem tallyChild_eq (db : DB) (t : DeletionSummary) (c : MachineNode) :
    tallyChild t c = addSummary t (segSummary db [c] []) := by
  rcases hc : c.type <;>
    simp [tallyChild, hc, addSummary, segSummary, kindCount, keyedSum,
      List.countP_cons, List.countP_nil]

/-- The scope ids whose `problems`/`edges` rows `countRecursive` counts, in
preorder, on the unchanging store. -/
def preKeys : Nat → List MachineNode → Nat → List Nat
  | 0, _, _ => []
  | fuel + 1, nodes, nodeId =>
    nodeId :: (nodes.filter (fun n => n.parentId == nodeId)).flatMap
      (fun c => preKeys fuel nodes c.id)

theorem count_foldl (fuel : Nat) (db : DB)
    (IH : ∀ m, countRecursive fuel db m =
      segSummary db (staticRows fuel db.nodes m) (preKeys fuel db.nodes m)) :
    ∀ (cs : List MachineNode) (t0 : DeletionSummary),
      cs.foldl
          (fun t c => addSummary (tallyChild t c) (countRecursive fuel db c.id)) t0
        = addSummary t0
            (segSummary db (cs.flatMap (fun c => c :: staticRows fuel db.nodes c.id))
              (cs.flatMap (fun c => preKeys fuel db.nodes c.id))) := by
  intro cs
  induction cs with
  | nil =>
    intro t0
    simp [segSummary_zero, addSummary_zero_right]
  | cons c cs ih =>
    intro t0
    have h1 : addSummary (tallyChild t0 c) (countRecursive fuel db c.id)
        = addSummary t0 (segSummary db (c :: staticRows fuel db.nodes c.id)
            (preKeys fuel db.nodes c.id)) := by
      rw [tallyChild_eq db, IH c.id, addSummary_assoc, ← segSummary_append]
      rfl
    rw [List.foldl_cons, ih, h1, addSummary_assoc, ← segSummary_append]
    simp [List.flatMap_cons]

theorem countRecursive_eq :
    ∀ (fuel : Nat) (db : DB) (n : Nat),
      countRecursive fuel db n =
        segSummary db (staticRows fuel db.nodes n) (preKeys fuel db.nodes n) := by
  intro fuel
  induction fuel with
  | zero =>
    intro db n
    exact (segSummary_zero db).symm
  | succ fuel ih =>
    intro db n
    rw [countRecursive]
    rw [count_foldl fuel db (fun m => ih db m)]
    have hinit : (⟨0, 0, 0, 0, 0,
        (db.problems.filter (fun p => p.machineNodeId == n)).length,
        (db.edges.filter (fun e => e.parentId == n)).length⟩ : DeletionSummary)
        = segSummary db [] [n] := by
      simp [segSummary, kindCount, keyedSum]
    rw [hinit, ← segSummary_append]
    simp [staticRows, preKeys]

theorem map_flatMap_comm {α β γ : Type} (l : List α) (f : α → List β) (g : β → γ) :
    (l.flatMap f).map g = l.flatMap (fun x => (f x).map g) := by
  induction l with
  | nil => rfl
  | cons x xs ih => simp [List.flatMap_cons, ih]

theorem preKeys_eq :
    ∀ (fuel : Nat) (nodes : List MachineNode) (n : Nat),
      preKeys (fuel + 1) nodes n =
        n :: (staticRows fuel nodes n).map (fun r => r.id) := by
  intro fuel
  induction fuel with
  | zero =>
    intro nodes n
    simp [preKeys, staticRows]
  | succ fuel ih =>
    intro nodes n
    conv_lhs => rw [preKeys]
    conv_rhs => rw [staticRows]
    simp only [ih]
    rw [map_flatMap_comm]
    simp

theorem flatMap_perm {α β : Type} (l : List α) (f g : α → List β)
    (h : ∀ x ∈ l, (f x).Perm (g x)) : (l.flatMap f).Perm (l.flatMap g) := by
  induction l with
  | nil => simp
  | cons x xs ih =>
    simp only [List.flatMap_cons]
    exact (h x (by simp)).append (ih (fun y hy => h y (by simp [hy])))

theorem staticWalk_perm :
    ∀ (fuel : Nat) (nodes : List MachineNode) (n : Nat),
      (staticWalk (fuel + 1) nodes n).Perm (preKeys (fuel + 1) nodes n) := by
  intro fuel
  induction fuel with
  | zero =>
    intro nodes n
    simp [staticWalk, preKeys]
  | succ fuel ih =>
    intro nodes n
    conv_lhs => rw [staticWalk]
    conv_rhs => rw [preKeys]
    refine List.Perm.trans (List.perm_append_singleton _ _) (List.Perm.cons n ?_)
    exact flatMap_perm _ _ _ (fun c _ => ih nodes c.id)

theorem staticRows_mem :
    ∀ (fuel : Nat) (nodes : List MachineNode) (n : Nat) (r : MachineNode),
      r ∈ staticRows fuel nodes n → r ∈ nodes := by
  intro fuel
  induction fuel with
  | zero =>
    intro nodes n r hr
    rw [staticRows] at hr
    exact absurd hr (List.not_mem_nil r)
  | succ fuel ih =>
    intro nodes n r hr
    rw [staticRows] at hr
    rcases List.mem_flatMap.mp hr with ⟨c, hc, hrc⟩
    rcases List.mem_cons.mp hrc with rfl | hrec
    · exact (List.mem_filter.mp hc).1
    · exact ih nodes c.id r hrec

theorem length_filter_or_disjoint {α : Type} (p q : α → Bool) (l : List α)
    (hdisj : ∀ x, p x = true → q x = false) :
    (l.filter (fun x => p x || q x)).length = (l.filter p).length + (l.filter q).length := by
  induction l with
  | nil => rfl
  | cons x xs ih =>
    rcases hp : p x with _ | _
    · rcases hq : q x with _ | _ <;> simp [List.filter_cons, hp, hq, ih] <;> omega
    · have hq := hdisj x hp
      simp [List.filter_cons, hp, hq, ih]
      omega

theorem keyedSum_filter {α : Type} (key : α → Nat) :
    ∀ (vs : List Nat), vs.Nodup → ∀ (l : List α),
      keyedSum vs (fun v => (l.filter (fun x => key x == v)).length) =
        (l.filter (fun x => vs.contains (key x))).length := by
  intro vs
  induction vs with
  | nil =>
    intro _ l
    simp [keyedSum]
  | cons v vs ih =>
    intro hnd l
    have hv : v ∉ vs := (List.nodup_cons.mp hnd).1
    have htl : vs.Nodup := (List.nodup_cons.mp hnd).2
    have hdisj : ∀ x, (key x == v) = true → vs.contains (key x) = false := by
      intro x hx
      have : key x = v := by simpa using hx
      subst this
      simpa using hv
    calc keyedSum (v :: vs) (fun w => (l.filter (fun x => key x == w)).length)
        = (l.filter (fun x => key x == v)).length +
            keyedSum vs (fun w => (l.filter (fun x => key x == w)).length) := by
          simp [keyedSum]
      _ = (l.filter (fun x => key x == v)).length +
            (l.filter (fun x => vs.contains (key x))).length := by rw [ih htl l]
      _ = (l.filter (fun x => (key x == v) || vs.contains (key x))).length := by
          rw [length_filter_or_disjoint _ _ l hdisj]
      _ = (l.filter (fun x => (v :: vs).contains (key x))).length := by
          simp [List.contains_cons, nat_beq_eq_decide]

theorem filter_id_singleton :
    ∀ (nodes : List MachineNode), NoDupIds nodes → ∀ r ∈ nodes,
      nodes.filter (fun x => x.id == r.id) = [r] := by
  intro nodes
  induction nodes with
  | nil =>
    intro _ r hr
    exact absurd hr (List.not_mem_nil r)
  | cons a ns ih =>
    intro hnd r hr
    have hna : a.id ∉ ns.map (fun x => x.id) := (List.nodup_cons.mp hnd).1
    have htl : NoDupIds ns := (List.nodup_cons.mp hnd).2
    rcases List.mem_cons.mp hr with rfl | hmem
    · have hnone : ns.filter (fun x => x.id == r.id) = [] := by
        refine List.filter_eq_nil_iff.mpr (fun x hx => ?_)
        simp only [beq_iff_eq]
        intro hid
        exact hna (hid ▸ List.mem_map_of_mem (fun y => y.id) hx)
      simp [List.filter_cons, hnone]
    · have hne : (a.id == r.id) = false := by
        simp only [beq_eq_false_iff_ne, ne_eq]
        intro hid
        exact hna (hid ▸ List.mem_map_of_mem (fun y => y.id) hmem)
      simp [List.filter_cons, hne, ih htl r hmem]

theorem staticRows_of_no_children {nodes : List MachineNode} {n : Nat}
    (h : nodes.filter (fun c => c.parentId == n) = []) :
    ∀ g, staticRows g nodes n = [] := by
  intro g
  cases g with
  | zero => rfl
  | succ g => rw [staticRows, h]; rfl

/-- Once the fuel exceeds every rank in the store, `staticRows` has converged:
any two sufficient budgets enumerate the same rows. -/
theorem staticRows_saturate {nodes : List MachineNode} {rank : Nat → Nat} {B : Nat}
    (hrk : RankOk nodes rank) (HB : ∀ r ∈ nodes, rank r.id < B) :
    ∀ (m : Nat) (s : Nat) (n : Nat),
      B - s ≤ m →
      (∀ c ∈ nodes, c.parentId = n → s ≤ rank c.id) →
      ∀ g₁ g₂ : Nat, B - s ≤ g₁ → B - s ≤ g₂ →
        staticRows g₁ nodes n = staticRows g₂ nodes n := by
  intro m
  induction m with
  | zero =>
    intro s n hm hs g₁ g₂ _ _
    have hemp : nodes.filter (fun c => c.parentId == n) = [] := by
      refine List.filter_eq_nil_iff.mpr (fun c hc => ?_)
      simp only [beq_iff_eq]
      intro hpar
      have h1 := hs c hc hpar
      have h2 := HB c hc
      omega
    rw [staticRows_of_no_children hemp g₁, staticRows_of_no_children hemp g₂]
  | succ m ihm =>
    intro s n hm hs g₁ g₂ hg₁ hg₂
    by_cases hBs : B ≤ s
    · have hemp : nodes.filter (fun c => c.parentId == n) = [] := by
        refine List.filter_eq_nil_iff.mpr (fun c hc => ?_)
        simp only [beq_iff_eq]
        intro hpar
        have h1 := hs c hc hpar
        have h2 := HB c hc
        omega
      rw [staticRows_of_no_children hemp g₁, staticRows_of_no_children hemp g₂]
    · have hpos : 1 ≤ B - s := by omega
      obtain ⟨g₁', rfl⟩ : ∃ g, g₁ = g + 1 := ⟨g₁ - 1, by omega⟩
      obtain ⟨g₂', rfl⟩ : ∃ g, g₂ = g + 1 := ⟨g₂ - 1, by omega⟩
      rw [staticRows, staticRows, List.flatMap_def, List.flatMap_def]
      refine congrArg List.flatten (List.map_congr_left ?_)
      intro c hc
      have hcn : c ∈ nodes := (List.mem_filter.mp hc).1
      have hpar : c.parentId = n := by
        have := (List.mem_filter.mp hc).2
        simpa using this
      have hcs : s ≤ rank c.id := hs c hcn hpar
      have hcB : rank c.id < B := HB c hcn
      have hrec := ihm (rank c.id + 1) c.id (by omega)
        (fun d hd hdp => hrk d hd c hcn (by rw [hdp]))
        g₁' g₂' (by omega) (by omega)
      rw [hrec]

theorem sum_map_ite_count {α : Type} (p : α → Bool) :
    ∀ (l : List α), (l.map (fun x => if p x then 1 else 0)).sum = l.countP p := by
  intro l
  induction l with
  | nil => rfl
  | cons x xs ih =>
    rcases hx : p x with _ | _ <;> simp [List.countP_cons, hx, ih] <;> omega

theorem keyedSum_perm {vs ws : List Nat} (h : vs.Perm ws) (cnt : Nat → Nat) :
    keyedSum vs cnt = keyedSum ws cnt :=
  (h.map cnt).sum_eq

theorem keyedSum_cons (v : Nat) (vs : List Nat) (cnt : Nat → Nat) :
    keyedSum (v :: vs) cnt = cnt v + keyedSum vs cnt := by
  simp [keyedSum]

theorem keyedSum_map_id (rows : List MachineNode) (cnt : Nat → Nat) :
    keyedSum (rows.map (fun r => r.id)) cnt = (rows.map (fun r => cnt r.id)).sum := by
  simp [keyedSum, List.map_map]
  rfl

theorem filter_swap {α : Type} (p q : α → Bool) (l : List α) :
    (l.filter p).filter q = (l.filter q).filter p := by
  induction l with
  | nil => rfl
  | cons x xs ih =>
    rcases hp : p x with _ | _ <;> rcases hq : q x with _ | _ <;>
      simp [List.filter_cons, hp, hq, ih]

theorem removed_kind_count
    {db : DB} {fuel n : Nat} {rank : Nat → Nat} {root : MachineNode}
    (hnd : NoDupIds db.nodes) (hrk : RankOk db.nodes rank)
    (HB : ∀ r ∈ db.nodes, rank r.id < fuel)
    (hr : root ∈ db.nodes) (hid : root.id = n) (t : NodeType) :
    ((db.nodes.filter
        (fun r => (staticWalk (fuel + 1) db.nodes n).contains r.id)).filter
        (fun r => r.type == t)).length
      = (if root.type == t then 1 else 0) +
          kindCount t (staticRows (fuel + 1) db.nodes n) := by
  have hVnd : (staticWalk (fuel + 1) db.nodes n).Nodup :=
    staticWalk_nodup hnd hrk (fuel + 1) n
  have hperm : (staticWalk (fuel + 1) db.nodes n).Perm
      (n :: (staticRows fuel db.nodes n).map (fun r => r.id)) := by
    refine (staticWalk_perm fuel db.nodes n).trans ?_
    rw [preKeys_eq]
  have hsat : staticRows (fuel + 1) db.nodes n = staticRows fuel db.nodes n :=
    staticRows_saturate hrk HB fuel 0 n (by omega)
      (fun c _ _ => Nat.zero_le _) (fuel + 1) fuel (by omega) (by omega)
  have hsing : ∀ r ∈ db.nodes,
      ((db.nodes.filter (fun x => x.type == t)).filter
        (fun x => x.id == r.id)).length = if r.type == t then 1 else 0 := by
    intro r hrm
    rw [filter_swap, filter_id_singleton db.nodes hnd r hrm, List.filter_singleton]
    rcases ht : r.type == t with _ | _ <;> simp [ht]
  calc ((db.nodes.filter
        (fun r => (staticWalk (fuel + 1) db.nodes n).contains r.id)).filter
        (fun r => r.type == t)).length
      = ((db.nodes.filter (fun r => r.type == t)).filter
          (fun r => (staticWalk (fuel + 1) db.nodes n).contains r.id)).length := by
        rw [filter_swap]
    _ = keyedSum (staticWalk (fuel + 1) db.nodes n)
          (fun v => ((db.nodes.filter (fun r => r.type == t)).filter
            (fun x => x.id == v)).length) := by
        rw [keyedSum_filter (fun r : MachineNode => r.id)
          (staticWalk (fuel + 1) db.nodes n) hVnd
          (db.nodes.filter (fun r => r.type == t))]
    _ = keyedSum (n :: (staticRows fuel db.nodes n).map (fun r => r.id))
          (fun v => ((db.nodes.filter (fun r => r.type == t)).filter
            (fun x => x.id == v)).length) := keyedSum_perm hperm _
    _ = (if root.type == t then 1 else 0) +
          kindCount t (staticRows (fuel + 1) db.nodes n) := by
        rw [keyedSum_cons, keyedSum_map_id]
        have hn : ((db.nodes.filter (fun r => r.type == t)).filter
            (fun x => x.id == n)).length = if root.type == t then 1 else 0 := by
          rw [← hid]
          exact hsing root hr
        rw [hn]
        congr 1
        have hmap : (staticRows fuel db.nodes n).map
            (fun r => ((db.nodes.filter (fun x => x.type == t)).filter
              (fun x => x.id == r.id)).length)
            = (staticRows fuel db.nodes n).map
              (fun r => if r.type == t then 1 else 0) :=
          List.map_congr_left
            (fun r hrm => hsing r (staticRows_mem fuel db.nodes n r hrm))
        rw [hmap, sum_map_ite_count, hsat]
        rfl

theorem removed_keyed_count {α : Type} (key : α → Nat)
    {nodes : List MachineNode} {rank : Nat → Nat}
    (hnd : NoDupIds nodes) (hrk : RankOk nodes rank)
    (fuel n : Nat) (l : List α) :
    (l.filter (fun x => (staticWalk (fuel + 1) nodes n).contains (key x))).length
      = keyedSum (preKeys (fuel + 1) nodes n)
          (fun v => (l.filter (fun x => key x == v)).length) := by
  rw [← keyedSum_filter key (staticWalk (fuel + 1) nodes n)
    (staticWalk_nodup hnd hrk (fuel + 1) n) l]
  exact keyedSum_perm (staticWalk_perm fuel nodes n) _

/-- Claim C4: corrected. The pre-delete dry-run does mirror the recursive
delete on the stores it counts, but per *kind*: each deleted descendant row is
tallied under the category of its own kind (`nodes` counts only rows of kind
`machine`, procedures go under `sops`, and so on), and the root itself adds 1
to `nodes`. So for a root machine M with one child procedure P the summary is
`nodes = 1, sops = 1` — not `nodes = 2` as claimed. The `problems` and `edges`
counts equal exactly the number of Problem rows keyed to a visited scope and
Edge rows owned by a visited scope that the delete then removes (the delete
also removes VictoryConditions and StatusChanges, which the summary does not
count). First conjunct: the dry-run aggregate as a fold over the statically
enumerated visited rows and scopes; second: on a store with distinct ids and
rank-acyclic parent pointers, with fuel beyond every rank, each summary
category equals the count of rows the delete removes, per kind. -/
theorem deletionSummary_mirror_amended :
    (∀ (fuel : Nat) (db : DB) (n : Nat),
      countRecursive fuel db n =
        segSummary db (staticRows fuel db.nodes n) (preKeys fuel db.nodes n)) ∧
    (∀ (fuel : Nat) (db : DB) (n : Nat) (rank : Nat → Nat) (root : MachineNode),
      NoDupIds db.nodes → RankOk db.nodes rank →
      (∀ r ∈ db.nodes, rank r.id < fuel) →
      root ∈ db.nodes → root.id = n → root.type = NodeType.machine →
      ((deleteRecursive (fuel + 1) db n).nodes =
          db.nodes.filter
            (fun r => !((delWalk (fuel + 1) db.nodes n).1.contains r.id)) ∧
        (deleteRecursive (fuel + 1) db n).problems =
          db.problems.filter
            (fun p => !((delWalk (fuel + 1) db.nodes n).1.contains p.machineNodeId)) ∧
        (deleteRecursive (fuel + 1) db n).edges =
          db.edges.filter
            (fun e => !((delWalk (fuel + 1) db.nodes n).1.contains e.parentId))) ∧
      (prepareDeleteSummary (fuel + 1) db n).problems =
        (db.problems.filter
          (fun p => (delWalk (fuel + 1) db.nodes n).1.contains p.machineNodeId)).length ∧
      (prepareDeleteSummary (fuel + 1) db n).edges =
        (db.edges.filter
          (fun e => (delWalk (fuel + 1) db.nodes n).1.contains e.parentId)).length ∧
      (prepareDeleteSummary (fuel + 1) db n).nodes =
        ((db.nodes.filter
          (fun r => (delWalk (fuel + 1) db.nodes n).1.contains r.id)).filter
          (fun r => r.type == NodeType.machine)).length ∧
      (prepareDeleteSummary (fuel + 1) db n).sops =
        ((db.nodes.filter
          (fun r => (delWalk (fuel + 1) db.nodes n).1.contains r.id)).filter
          (fun r => r.type == NodeType.sop)).length ∧
      (prepareDeleteSummary (fuel + 1) db n).tools =
        ((db.nodes.filter
          (fun r => (delWalk (fuel + 1) db.nodes n).1.contains r.id)).filter
          (fun r => r.type == NodeType.tool)).length ∧
      (prepareDeleteSummary (fuel + 1) db n).skills =
        ((db.nodes.filter
          (fun r => (delWalk (fuel + 1) db.nodes n).1.contains r.id)).filter
          (fun r => r.type == NodeType.skill)).length ∧
      (prepareDeleteSummary (fuel + 1) db n).notes =
        ((db.nodes.filter
          (fun r => (delWalk (fuel + 1) db.nodes n).1.contains r.id)).filter
          (fun r => r.type == NodeType.note)).length) := by
  refine ⟨countRecursive_eq, ?_⟩
  intro fuel db n rank root hnd hrk HB hr hid htype
  have hVeq : (delWalk (fuel + 1) db.nodes n).1 = staticWalk (fuel + 1) db.nodes n :=
    delWalk_eq_staticWalk hnd hrk (fuel + 1) n
  have hcnt := countRecursive_eq (fuel + 1) db n
  have hprep : prepareDeleteSummary (fuel + 1) db n =
      { segSummary db (staticRows (fuel + 1) db.nodes n)
          (preKeys (fuel + 1) db.nodes n) with
        nodes := (segSummary db (staticRows (fuel + 1) db.nodes n)
          (preKeys (fuel + 1) db.nodes n)).nodes + 1 } := by
    rw [prepareDeleteSummary, hcnt]
  have hkind := fun t => removed_kind_count hnd hrk HB hr hid t
  have hdel := deleteRecursive_delApplied (fuel + 1) db n
  refine ⟨⟨?_, ?_, ?_⟩, ?_, ?_, ?_, ?_, ?_, ?_, ?_⟩
  · rw [hdel]
    exact delWalk_snd (fuel + 1) db.nodes n
  · rw [hdel]
    rfl
  · rw [hdel]
    rfl
  · rw [hprep, hVeq]
    dsimp only [segSummary]
    exact (removed_keyed_count (fun p : Problem => p.machineNodeId)
      hnd hrk fuel n db.problems).symm
  · rw [hprep, hVeq]
    dsimp only [segSummary]
    exact (removed_keyed_count (fun e : MachineEdge => e.parentId)
      hnd hrk fuel n db.edges).symm
  · rw [hprep, hVeq, hkind NodeType.machine, htype]
    simp [segSummary, Nat.add_comm]
  · rw [hprep, hVeq, hkind NodeType.sop, htype]
    simp [segSummary]
  · rw [hprep, hVeq, hkind NodeType.tool, htype]
    simp [segSummary]
  · rw [hprep, hVeq, hkind NodeType.skill, htype]
    simp [segSummary]
  · rw [hprep, hVeq, hkind NodeType.note, htype]
    simp [segSummary]

theorem deletionSummary_mirror_amended_witness :
    (prepareDeleteSummary (9 + 1) exDeleteDB 1).sops =
      ((exDeleteDB.nodes.filter
        (fun r => (delWalk (9 + 1) exDeleteDB.nodes 1).1.contains r.id)).filter
        (fun r => r.type == NodeType.sop)).length :=
  (deletionSummary_mirror_amended.2 9 exDeleteDB 1 (fun i => i)
      (sampleNode 1 0 .machine "building" 0)
      (by unfold NoDupIds; decide) (by unfold RankOk; decide)
      (by decide) (by decide) rfl rfl).2.2.2.2.1
